import Mathlib

/-!
# The `fabcar` chaincode (`chaincode/fabcar/go/fabcar.go`)

A shallow embedding of the contract and of the library behaviour it relies on.

* Go `string` and `[]byte` values are finite byte sequences (`GoString`); a `nil`
  slice and an empty slice are both the empty list.
* `unicode/utf8`, `strconv.Itoa` and `encoding/json` (`Marshal` of a `Car`,
  `Unmarshal` into a `Car`) are embedded as executable functions over bytes,
  following the Go standard library of the Fabric 1.x toolchains: strings are
  encoded with HTML escaping, invalid UTF-8 is coerced to U+FFFD, object keys are
  matched to struct fields exactly or else case-insensitively.
* The chaincode stub is an in-memory ledger (an association list kept in
  ascending key order by `PutState`, as `shim.MockStub` does) together with a
  `LedgerClient` value that says which stub calls fail. The loop of `initLedger`
  also keeps the record of the `PutState` calls it issues, in order.
* The encoder writes control characters other than line feed, carriage return
  and tab as six-byte escapes, and the scanner has no nesting limit.
* Output written with `fmt.Println` and `fmt.Printf` is not part of a response
  and is left out.
-/

namespace Fabcar

/-! ## Bytes and strings -/

/-- A Go `string` or `[]byte`: a finite sequence of bytes, a byte being a `Fin 256`. -/
abbrev GoString := List (Fin 256)

/-- The bytes of a string literal of the source (its UTF-8 encoding). -/
def str (s : String) : GoString :=
  s.data.flatMap (fun c => (String.utf8EncodeChar c).map UInt8.val)

/-- Go's `<` on strings: lexicographic order on bytes. -/
def strLess : GoString → GoString → Bool
  | [], [] => false
  | [], _ :: _ => true
  | _ :: _, [] => false
  | a :: as, b :: bs => if a < b then true else if b < a then false else strLess as bs

/-- Conversion `strconv.Itoa` on a non-negative `int`: decimal digits, no padding. -/
def Itoa (i : Nat) : GoString :=
  (Nat.toDigits 10 i).map (fun c => Fin.ofNat c.toNat)

/-! ## `unicode/utf8` -/

/-- The constant `utf8.RuneError`, U+FFFD. -/
def RuneError : Nat := 0xFFFD

/-- Function `utf8.DecodeRune`: the first rune of `p` and its width in bytes;
`(RuneError, 1)` when `p` does not start with a valid encoding, `(RuneError, 0)`
when `p` is empty. Masks and shifts are written with `%` and `*`. -/
def DecodeRune : GoString → Nat × Nat
  | [] => (RuneError, 0)
  | p0 :: rest =>
    if p0 < 0x80 then (p0.val, 1)
    else if p0 < 0xC2 ∨ 0xF4 < p0 then (RuneError, 1)
    else
      match rest with
      | [] => (RuneError, 1)
      | b1 :: rest1 =>
        if b1 < (if p0 = 0xE0 then 0xA0 else if p0 = 0xF0 then 0x90 else 0x80)
            ∨ (if p0 = 0xED then 0x9F else if p0 = 0xF4 then 0x8F else 0xBF) < b1 then
          (RuneError, 1)
        else if p0 < 0xE0 then (p0.val % 32 * 64 + b1.val % 64, 2)
        else
          match rest1 with
          | [] => (RuneError, 1)
          | b2 :: rest2 =>
            if b2 < 0x80 ∨ 0xBF < b2 then (RuneError, 1)
            else if p0 < 0xF0 then
              (p0.val % 16 * 4096 + b1.val % 64 * 64 + b2.val % 64, 3)
            else
              match rest2 with
              | [] => (RuneError, 1)
              | b3 :: _ =>
                if b3 < 0x80 ∨ 0xBF < b3 then (RuneError, 1)
                else
                  (p0.val % 8 * 262144 + b1.val % 64 * 4096 + b2.val % 64 * 64
                    + b3.val % 64, 4)

/-- Function `utf8.EncodeRune`: the UTF-8 encoding of rune `r`; surrogates and
values above U+10FFFF are encoded as U+FFFD. -/
def EncodeRune (r : Nat) : GoString :=
  if r ≤ 0x7F then [Fin.ofNat r]
  else if r ≤ 0x7FF then [Fin.ofNat (0xC0 + r / 64), Fin.ofNat (0x80 + r % 64)]
  else if 0x10FFFF < r ∨ (0xD800 ≤ r ∧ r ≤ 0xDFFF) then [0xEF, 0xBF, 0xBD]
  else if r ≤ 0xFFFF then
    [Fin.ofNat (0xE0 + r / 4096), Fin.ofNat (0x80 + r / 64 % 64), Fin.ofNat (0x80 + r % 64)]
  else
    [Fin.ofNat (0xF0 + r / 262144), Fin.ofNat (0x80 + r / 4096 % 64),
      Fin.ofNat (0x80 + r / 64 % 64), Fin.ofNat (0x80 + r % 64)]

/-- Loop of `utf8.ValidString`: every position starts a valid encoding. -/
def validLoop : Nat → GoString → Bool
  | 0, s => s.isEmpty
  | _ + 1, [] => true
  | fuel + 1, b :: rest =>
    if (DecodeRune (b :: rest)).1 = RuneError ∧ (DecodeRune (b :: rest)).2 = 1 then false
    else validLoop fuel (rest.drop ((DecodeRune (b :: rest)).2 - 1))

/-- Function `utf8.ValidString`: `s` consists entirely of valid UTF-8 encoded runes. -/
def ValidString (s : GoString) : Bool := validLoop s.length s

/-- Loop of `ToValidUTF8`. -/
def coerceLoop : Nat → GoString → GoString
  | 0, _ => []
  | _ + 1, [] => []
  | fuel + 1, b :: rest =>
    if b < 0x80 then b :: coerceLoop fuel rest
    else if (DecodeRune (b :: rest)).1 = RuneError ∧ (DecodeRune (b :: rest)).2 = 1 then
      0xEF :: 0xBF :: 0xBD :: coerceLoop fuel rest
    else
      (b :: rest).take (DecodeRune (b :: rest)).2
        ++ coerceLoop fuel (rest.drop ((DecodeRune (b :: rest)).2 - 1))

/-- The string `s` coerced to valid UTF-8 the way `encoding/json` does it: every
byte that does not start a valid encoding is replaced by the three bytes of
U+FFFD, everything else is kept. -/
def ToValidUTF8 (s : GoString) : GoString := coerceLoop s.length s

/-! ## `encoding/json`: encoding -/

/-- The vehicle record `Car`, with JSON member names `make`, `model`, `colour`, `owner`. -/
structure Car where
  Make : GoString
  Model : GoString
  Colour : GoString
  Owner : GoString
deriving DecidableEq, Repr

/-- The table `hex = "0123456789abcdef"` of the encoder, indexed. -/
def hex (n : Nat) : Fin 256 := (str "0123456789abcdef").getD n 0

/-- The table `htmlSafeSet`: ASCII bytes the encoder copies unescaped, that is all
of 0x20..0x7F except the double quote, the backslash and the HTML characters. -/
def htmlSafeSet (b : Fin 256) : Bool :=
  decide (0x20 ≤ b ∧ b < 0x80 ∧ b ≠ 0x22 ∧ b ≠ 0x5C ∧ b ≠ 0x26 ∧ b ≠ 0x3C ∧ b ≠ 0x3E)

/-- The body of `encodeState.string(s, escapeHTML = true)`, between the two quotes:
one loop iteration per byte or rune of `s`. -/
def encodeStringLoop : Nat → GoString → GoString
  | 0, _ => []
  | _ + 1, [] => []
  | fuel + 1, b :: rest =>
    if b < 0x80 then
      if htmlSafeSet b then b :: encodeStringLoop fuel rest
      -- a backslash, then the escaped byte
      else if b = 0x5C ∨ b = 0x22 then 0x5C :: b :: encodeStringLoop fuel rest
      else if b = 0x0A then 0x5C :: 0x6E :: encodeStringLoop fuel rest
      else if b = 0x0D then 0x5C :: 0x72 :: encodeStringLoop fuel rest
      else if b = 0x09 then 0x5C :: 0x74 :: encodeStringLoop fuel rest
      -- backslash, u, 0, 0 and the two hex digits of b
      else
        0x5C :: 0x75 :: 0x30 :: 0x30 :: hex (b.val / 16) :: hex (b.val % 16)
          :: encodeStringLoop fuel rest
    else if (DecodeRune (b :: rest)).1 = RuneError ∧ (DecodeRune (b :: rest)).2 = 1 then
      -- backslash, u, f, f, f, d: the escape of U+FFFD
      0x5C :: 0x75 :: 0x66 :: 0x66 :: 0x66 :: 0x64 :: encodeStringLoop fuel rest
    else if (DecodeRune (b :: rest)).1 = 0x2028 ∨ (DecodeRune (b :: rest)).1 = 0x2029 then
      -- backslash, u, 2, 0, 2 and the last hex digit: the escape of U+2028 or U+2029
      0x5C :: 0x75 :: 0x32 :: 0x30 :: 0x32 :: hex ((DecodeRune (b :: rest)).1 % 16)
        :: encodeStringLoop fuel (rest.drop ((DecodeRune (b :: rest)).2 - 1))
    else
      (b :: rest).take (DecodeRune (b :: rest)).2
        ++ encodeStringLoop fuel (rest.drop ((DecodeRune (b :: rest)).2 - 1))

/-- The encoder's `string` method: `s` as a quoted JSON string. -/
def encodeString (s : GoString) : GoString :=
  0x22 :: (encodeStringLoop s.length s ++ [0x22])

/-- Function `json.Marshal` on a `Car`: the struct encoder writes the four members in
declaration order, each as quoted name, colon, quoted value. It cannot fail on
this type. -/
def Marshal (car : Car) : GoString :=
  0x7B :: (encodeString (str "make") ++ 0x3A :: (encodeString car.Make
    ++ 0x2C :: (encodeString (str "model") ++ 0x3A :: (encodeString car.Model
    ++ 0x2C :: (encodeString (str "colour") ++ 0x3A :: (encodeString car.Colour
    ++ 0x2C :: (encodeString (str "owner") ++ 0x3A :: (encodeString car.Owner
    ++ [0x7D]))))))))

/-! ## `encoding/json`: decoding -/

/-- What the decoder sees of a JSON value: its kind, the unquoted text of a string,
the members of an object in source order. -/
inductive Value where
  | null
  | bool
  | number
  | string (s : GoString)
  | array
  | object (members : List (GoString × Value))

/-- What the scanner is reading: a value, the rest of an array from an element on,
or the rest of an object from a member name on. -/
inductive Goal where
  | value
  | elements
  | members

/-- The scanner's `isSpace`: space, tab, carriage return, line feed. -/
def isSpace (c : Fin 256) : Bool := decide (c = 0x20 ∨ c = 0x09 ∨ c = 0x0D ∨ c = 0x0A)

/-- Skips insignificant white space. -/
def skipSpace : GoString → GoString
  | [] => []
  | c :: s => if isSpace c then skipSpace s else c :: s

/-- A decimal digit. -/
def isDigit (c : Fin 256) : Bool := decide (0x30 ≤ c ∧ c ≤ 0x39)

/-- Skips a run of decimal digits. -/
def skipDigits : GoString → GoString
  | [] => []
  | c :: s => if isDigit c then skipDigits s else c :: s

/-- Scanner states `stateE`, `stateESign`, `stateE0`: what follows the `e` of a number. -/
def scanExp (s : GoString) : Option GoString :=
  match (match s with
    | [] => []
    | c :: t => if c = 0x2B ∨ c = 0x2D then t else c :: t) with
  | [] => none
  | d :: u => if isDigit d then some (skipDigits u) else none

/-- Scanner states `state0`, `stateDot`, `stateDot0`: what follows the integer part. -/
def scanFrac (s : GoString) : Option GoString :=
  match s with
  | [] => some []
  | c :: t =>
    if c = 0x2E then
      match t with
      | [] => none
      | d :: u =>
        if isDigit d then
          match skipDigits u with
          | [] => some []
          | e :: v => if e = 0x65 ∨ e = 0x45 then scanExp v else some (e :: v)
        else none
    else if c = 0x65 ∨ c = 0x45 then scanExp t
    else some (c :: t)

/-- Scanner states `stateNeg`, `state1`: the integer part, after an optional minus. -/
def scanInt (s : GoString) : Option GoString :=
  match s with
  | [] => none
  | c :: t =>
    if c = 0x30 then scanFrac t
    else if 0x31 ≤ c ∧ c ≤ 0x39 then scanFrac (skipDigits t)
    else none

/-- Scans a JSON number and returns what follows it. -/
def scanNumber (s : GoString) : Option GoString :=
  match s with
  | [] => none
  | c :: t => if c = 0x2D then scanInt t else scanInt (c :: t)

/-- Scans one of the words `true`, `false`, `null` and returns what follows it. -/
def scanWord (word s : GoString) : Option GoString :=
  if word.isPrefixOf s then some (s.drop word.length) else none

/-- The value of a hexadecimal digit. -/
def hexVal (c : Fin 256) : Option Nat :=
  if 0x30 ≤ c ∧ c ≤ 0x39 then some (c.val - 0x30)
  else if 0x61 ≤ c ∧ c ≤ 0x66 then some (c.val - 0x57)
  else if 0x41 ≤ c ∧ c ≤ 0x46 then some (c.val - 0x37)
  else none

/-- The number written by the first four bytes of `s` as hexadecimal digits. -/
def hex4 : GoString → Option Nat
  | a :: b :: c :: d :: _ =>
    match hexVal a, hexVal b, hexVal c, hexVal d with
    | some x, some y, some z, some w => some (((x * 16 + y) * 16 + z) * 16 + w)
    | _, _, _, _ => none
  | _ => none

/-- The decoder's `getu4`: the code unit of an escape backslash, u, four hex digits
at the start of `s`. -/
def getu4 : GoString → Option Nat
  | c0 :: c1 :: t => if c0 = 0x5C ∧ c1 = 0x75 then hex4 t else none
  | _ => none

/-- The single-character escapes accepted by the scanner, with their meaning. -/
def unescape (e : Fin 256) : Option (Fin 256) :=
  if e = 0x22 ∨ e = 0x5C ∨ e = 0x2F then some e
  else if e = 0x62 then some 0x08
  else if e = 0x66 then some 0x0C
  else if e = 0x6E then some 0x0A
  else if e = 0x72 then some 0x0D
  else if e = 0x74 then some 0x09
  else none

/-- Puts `pre` in front of the text unquoted so far. -/
def prepend (pre : GoString) (r : Option (GoString × GoString)) :
    Option (GoString × GoString) :=
  r.map (fun p => (pre ++ p.1, p.2))

/-- The scanner's string states together with `unquoteBytes`: reads a string
literal whose opening quote has been consumed, up to and including its closing
quote, and returns the unquoted text and the rest of the input. Escapes are
resolved, surrogate pairs combined, and every rune is re-encoded, which turns
invalid UTF-8 and lone surrogates into U+FFFD. -/
def unquoteLoop : Nat → GoString → Option (GoString × GoString)
  | 0, _ => none
  | _ + 1, [] => none
  | fuel + 1, c :: s =>
    if c = 0x22 then some ([], s)
    else if c = 0x5C then
      match s with
      | [] => none
      | e :: s1 =>
        if e = 0x75 then
          match hex4 s1 with
          | none => none
          | some rr =>
            if 0xD800 ≤ rr ∧ rr < 0xE000 then
              match getu4 (s1.drop 4) with
              | none => prepend (EncodeRune RuneError) (unquoteLoop fuel (s1.drop 4))
              | some rr1 =>
                if rr < 0xDC00 ∧ 0xDC00 ≤ rr1 ∧ rr1 < 0xE000 then
                  prepend (EncodeRune ((rr - 0xD800) * 1024 + (rr1 - 0xDC00) + 0x10000))
                    (unquoteLoop fuel (s1.drop 10))
                else prepend (EncodeRune RuneError) (unquoteLoop fuel (s1.drop 4))
            else prepend (EncodeRune rr) (unquoteLoop fuel (s1.drop 4))
        else
          match unescape e with
          | none => none
          | some b => prepend [b] (unquoteLoop fuel s1)
    else if c < 0x20 then none
    else if c < 0x80 then prepend [c] (unquoteLoop fuel s)
    else
      prepend (EncodeRune (DecodeRune (c :: s)).1)
        (unquoteLoop fuel (s.drop ((DecodeRune (c :: s)).2 - 1)))

/-- Reads a string literal after its opening quote. -/
def unquote (s : GoString) : Option (GoString × GoString) := unquoteLoop s.length s

/-- The scanner (`checkValid`) and the value reader of the decoder in one pass:
reads what `goal` asks for at the start of the input and returns it with the
rest of the input, or `none` when the input is not valid JSON there. Each
recursive call uses one unit of `fuel`. -/
def scan : Nat → Goal → GoString → Option (Value × GoString)
  | 0, _, _ => none
  | _ + 1, _, [] => none
  | fuel + 1, .value, c :: s =>
    if c = 0x7B then
      match skipSpace s with
      | [] => none
      | d :: t => if d = 0x7D then some (.object [], t) else scan fuel .members (d :: t)
    else if c = 0x5B then
      match skipSpace s with
      | [] => none
      | d :: t => if d = 0x5D then some (.array, t) else scan fuel .elements (d :: t)
    else if c = 0x22 then (unquote s).map (fun r => (.string r.1, r.2))
    else if c = 0x2D ∨ isDigit c then (scanNumber (c :: s)).map (fun r => (.number, r))
    else if c = 0x74 then (scanWord (str "true") (c :: s)).map (fun r => (.bool, r))
    else if c = 0x66 then (scanWord (str "false") (c :: s)).map (fun r => (.bool, r))
    else if c = 0x6E then (scanWord (str "null") (c :: s)).map (fun r => (.null, r))
    else none
  | fuel + 1, .elements, c :: s =>
    match scan fuel .value (c :: s) with
    | none => none
    | some (_, r) =>
      match skipSpace r with
      | [] => none
      | d :: t =>
        if d = 0x2C then scan fuel .elements (skipSpace t)
        else if d = 0x5D then some (.array, t)
        else none
  | fuel + 1, .members, c :: s =>
    if c = 0x22 then
      match unquote s with
      | none => none
      | some (key, r) =>
        match skipSpace r with
        | [] => none
        | d :: t =>
          if d = 0x3A then
            match scan fuel .value (skipSpace t) with
            | none => none
            | some (v, r2) =>
              match skipSpace r2 with
              | [] => none
              | e :: u =>
                if e = 0x2C then
                  match scan fuel .members (skipSpace u) with
                  | some (.object ms, r3) => some (.object ((key, v) :: ms), r3)
                  | _ => none
                else if e = 0x7D then some (.object [(key, v)], u)
                else none
          else none
    else none

/-- The two kinds of error `json.Unmarshal` reports here; the contract discards
the error value, so its text is not modelled. -/
inductive JsonError where
  | SyntaxError
  | UnmarshalTypeError
deriving DecidableEq, Repr

/-- The decoder's `caseMask` applied to a byte: bit 0x20 cleared. -/
def caseMask (b : Fin 256) : Fin 256 := Fin.ofNat (b.val &&& 0xDF)

/-- The decoder's `equalFoldRight`: `t` equals the ASCII name `s` up to letter case,
where the Kelvin sign U+212A also matches `k` and the long s U+017F matches `s`. -/
def equalFold : GoString → GoString → Bool
  | [], t => t.isEmpty
  | _ :: _, [] => false
  | sb :: s, tb :: t =>
    if tb < 0x80 then
      if sb ≠ tb then
        if 0x41 ≤ caseMask sb ∧ caseMask sb ≤ 0x5A then
          if caseMask sb ≠ caseMask tb then false else equalFold s t
        else false
      else equalFold s t
    else if sb = 0x73 ∨ sb = 0x53 then
      if (DecodeRune (tb :: t)).1 ≠ 0x17F then false
      else equalFold s (t.drop ((DecodeRune (tb :: t)).2 - 1))
    else if sb = 0x6B ∨ sb = 0x4B then
      if (DecodeRune (tb :: t)).1 ≠ 0x212A then false
      else equalFold s (t.drop ((DecodeRune (tb :: t)).2 - 1))
    else false

/-- The JSON names of the fields of `Car`, in declaration order. -/
def fieldNames : List GoString := [str "make", str "model", str "colour", str "owner"]

/-- The field search of the object decoder: an exact match ends the search,
otherwise the first case-insensitive match is kept. -/
def findFieldLoop (key : GoString) : List GoString → Nat → Option Nat → Option Nat
  | [], _, f => f
  | name :: rest, i, f =>
    if name = key then some i
    else if f = none ∧ equalFold name key then findFieldLoop key rest (i + 1) (some i)
    else findFieldLoop key rest (i + 1) f

/-- The index of the field of `Car` that the object key `key` selects, if any. -/
def findField (key : GoString) : Option Nat := findFieldLoop key fieldNames 0 none

/-- Assignment to the field with index `i`. -/
def Car.setField (car : Car) (i : Nat) (s : GoString) : Car :=
  match i with
  | 0 => Car.mk s car.Model car.Colour car.Owner
  | 1 => Car.mk car.Make s car.Colour car.Owner
  | 2 => Car.mk car.Make car.Model s car.Owner
  | 3 => Car.mk car.Make car.Model car.Colour s
  | _ => car

/-- The decoder's `saveError`: the first error is kept. -/
def saveError (saved : Option JsonError) (err : JsonError) : Option JsonError :=
  match saved with
  | none => some err
  | some e => some e

/-- One member of the object being decoded into a `Car`: a string value is stored
in the field the key selects, `null` leaves the field as it is, any other value
is a type error and decoding goes on; members with unknown keys are skipped. -/
def storeMember (st : Car × Option JsonError) (m : GoString × Value) :
    Car × Option JsonError :=
  match findField m.1 with
  | none => st
  | some i =>
    match m.2 with
    | .string s => (st.1.setField i s, st.2)
    | .null => st
    | _ => (st.1, saveError st.2 .UnmarshalTypeError)

/-- Function `json.Unmarshal(data, &car)`: the value of `car` afterwards and the error
returned. Input that is not one valid JSON value leaves `car` untouched; so does
a value that is not an object. -/
def Unmarshal (data : GoString) (car : Car) : Car × Option JsonError :=
  match scan (2 * data.length + 2) .value (skipSpace data) with
  | none => (car, some .SyntaxError)
  | some (v, rest) =>
    if skipSpace rest ≠ [] then (car, some .SyntaxError)
    else
      match v with
      | .object ms => ms.foldl storeMember (car, none)
      | .null => (car, none)
      | _ => (car, some .UnmarshalTypeError)

/-- The JSON value that `data` is: what the scanner reads when `data` is one valid
JSON value with nothing but white space around it. -/
def topValue (data : GoString) : Option Value :=
  match scan (2 * data.length + 2) .value (skipSpace data) with
  | none => none
  | some (v, rest) => if skipSpace rest ≠ [] then none else some v

/-- Function `json.Valid`: `data` is a valid JSON encoding. -/
def Valid (data : GoString) : Bool := (topValue data).isSome

/-! ## The chaincode stub and the ledger -/

/-- The response `peer.Response` of an invocation. -/
structure Response where
  Status : Nat
  Message : GoString
  Payload : GoString
deriving DecidableEq, Repr

/-- Function `shim.Success`: status `OK` (200) with the payload. -/
def shim.Success (payload : GoString) : Response := Response.mk 200 [] payload

/-- Function `shim.Error`: status `ERROR` (500) with the message. -/
def shim.Error (msg : GoString) : Response := Response.mk 500 msg []

/-- The world state: the entries of the ledger, as key and value pairs. -/
abbrev Ledger := List (GoString × GoString)

/-- The value stored at `key`, if any. -/
def Ledger.get : Ledger → GoString → Option GoString
  | [], _ => none
  | (k, v) :: rest, key => if k = key then some v else Ledger.get rest key

/-- Stores `value` at `key`: replaces the entry of `key`, or inserts a new entry
in front of the first entry with a greater key. -/
def Ledger.put : Ledger → GoString → GoString → Ledger
  | [], key, value => [(key, value)]
  | (k, v) :: rest, key, value =>
    if k = key then (key, value) :: rest
    else if strLess key k then (key, value) :: (k, v) :: rest
    else (k, v) :: Ledger.put rest key value

/-- The entries with `startKey <= key < endKey`, in ledger order; an empty `endKey`
is no upper bound. -/
def Ledger.range (world : Ledger) (startKey endKey : GoString) : Ledger :=
  world.filter (fun kv => !strLess kv.1 startKey && (endKey.isEmpty || strLess kv.1 endKey))

/-- The failures of the ledger client: for each stub call, the error it returns
instead of doing its work, if any. `nextErr n` is the error of call number `n`
(from 0) of `Next` on a range iterator. -/
structure LedgerClient where
  getErr : GoString → Option GoString
  putErr : GoString → GoString → Option GoString
  rangeErr : GoString → GoString → Option GoString
  nextErr : Nat → Option GoString

/-- A ledger client none of whose calls fails. -/
def reliable : LedgerClient :=
  LedgerClient.mk (fun _ => none) (fun _ _ => none) (fun _ _ => none) (fun _ => none)

/-- Stub call `GetState(key)`: the stored bytes (empty when the key is absent) and the error. -/
def GetState (client : LedgerClient) (world : Ledger) (key : GoString) :
    GoString × Option GoString :=
  match client.getErr key with
  | some e => ([], some e)
  | none => ((world.get key).getD [], none)

/-- Stub call `PutState(key, value)`: the ledger afterwards and the error. A failed
call writes nothing. -/
def PutState (client : LedgerClient) (world : Ledger) (key value : GoString) :
    Ledger × Option GoString :=
  match client.putErr key value with
  | some e => (world, some e)
  | none => (world.put key value, none)

/-- Stub call `GetStateByRange(startKey, endKey)`: the entries the iterator will
yield, or the error. -/
def GetStateByRange (client : LedgerClient) (world : Ledger) (startKey endKey : GoString) :
    Except GoString Ledger :=
  match client.rangeErr startKey endKey with
  | some e => .error e
  | none => .ok (world.range startKey endKey)

/-! ## The contract -/

/-- Method `Init`: does nothing and succeeds. -/
def Init (world : Ledger) : Response × Ledger := (shim.Success [], world)

/-- Method `queryCar`. The error of `GetState` is discarded. -/
def queryCar (client : LedgerClient) (world : Ledger) (args : List GoString) :
    Response × Ledger :=
  if args.length ≠ 1 then
    (shim.Error (str "Incorrect number of arguments. Expecting 1"), world)
  else
    (shim.Success (GetState client world (args.getD 0 [])).1, world)

/-- The seed records of `initLedger`. -/
def cars : List Car :=
  [ Car.mk (str "Toyota") (str "Prius") (str "blue") (str "Tomoko"),
    Car.mk (str "Ford") (str "Mustang") (str "red") (str "Brad"),
    Car.mk (str "Hyundai") (str "Tucson") (str "green") (str "Jin Soo"),
    Car.mk (str "Volkswagen") (str "Passat") (str "yellow") (str "Max"),
    Car.mk (str "Tesla") (str "S") (str "black") (str "Adriana"),
    Car.mk (str "Peugeot") (str "205") (str "purple") (str "Michel"),
    Car.mk (str "Chery") (str "S22L") (str "white") (str "Aarav"),
    Car.mk (str "Fiat") (str "Punto") (str "violet") (str "Pari"),
    Car.mk (str "Tata") (str "Nano") (str "indigo") (str "Valeria"),
    Car.mk (str "Holden") (str "Barina") (str "brown") (str "Shotaro") ]

/-- The stub call `PutState(key, value)` on a ledger that comes with the record of the
calls of `PutState` issued so far: the call is added at the end of the record,
whether it fails or not. -/
def PutStateLogged (client : LedgerClient) (st : Ledger × List (GoString × GoString))
    (key value : GoString) : Ledger × List (GoString × GoString) :=
  ((PutState client st.1 key value).1, st.2 ++ [(key, value)])

/-- The loop `for i < len(cars)` of `initLedger`, from index `i` on; `fuel` bounds
the number of iterations. The state is the ledger with the record of the calls
of `PutState`. The error of `PutState` is discarded. -/
def initLedgerLoop (client : LedgerClient) :
    Nat → Nat → Ledger × List (GoString × GoString) → Ledger × List (GoString × GoString)
  | 0, _, st => st
  | fuel + 1, i, st =>
    if i < cars.length then
      initLedgerLoop client fuel (i + 1)
        (PutStateLogged client st (str "CAR" ++ Itoa i)
          (Marshal (cars.getD i (Car.mk [] [] [] []))))
    else st

/-- Method `initLedger`. -/
def initLedger (client : LedgerClient) (world : Ledger) : Response × Ledger :=
  (shim.Success [], (initLedgerLoop client cars.length 0 (world, [])).1)

/-- The calls of `PutState` that `initLedger` issues, as key and value, in the order
in which it issues them. -/
def initLedgerPuts (client : LedgerClient) (world : Ledger) : List (GoString × GoString) :=
  (initLedgerLoop client cars.length 0 (world, [])).2

/-- Method `createCar`. The error of `PutState` is discarded. -/
def createCar (client : LedgerClient) (world : Ledger) (args : List GoString) :
    Response × Ledger :=
  if args.length ≠ 5 then
    (shim.Error (str "Incorrect number of arguments. Expecting 5"), world)
  else
    (shim.Success [],
      (PutState client world (args.getD 0 [])
        (Marshal (Car.mk (args.getD 1 []) (args.getD 2 []) (args.getD 3 [])
          (args.getD 4 [])))).1)

/-- One array element written by `queryAllCars` for a scanned entry. -/
def writeElement (kv : GoString × GoString) : GoString :=
  str "\x7b\"Key\":" ++ str "\"" ++ kv.1 ++ str "\"" ++ str ", \"Record\":" ++ kv.2 ++ str "\x7d"

/-- The loop `for resultsIterator.HasNext()` of `queryAllCars`: `n` is the number
of calls of `Next` so far, `written` is `bArrayMemberAlreadyWritten`; the result
is the buffer after the loop, or the error of a failed `Next`. -/
def queryAllCarsLoop (client : LedgerClient) :
    Ledger → Nat → Bool → GoString → Except GoString GoString
  | [], _, _, buffer => .ok buffer
  | kv :: rest, n, written, buffer =>
    match client.nextErr n with
    | some e => .error e
    | none =>
      queryAllCarsLoop client rest (n + 1) true
        ((if written then buffer ++ str "," else buffer) ++ writeElement kv)

/-- Method `queryAllCars`. Closing the iterator has no effect on the response. -/
def queryAllCars (client : LedgerClient) (world : Ledger) : Response × Ledger :=
  match GetStateByRange client world (str "CAR0") (str "CAR999") with
  | .error e => (shim.Error e, world)
  | .ok results =>
    match queryAllCarsLoop client results 0 false (str "[") with
    | .error e => (shim.Error e, world)
    | .ok buffer => (shim.Success (buffer ++ str "]"), world)

/-- Method `changeCarOwner`. The errors of `GetState`, `json.Unmarshal` and `PutState`
are discarded. -/
def changeCarOwner (client : LedgerClient) (world : Ledger) (args : List GoString) :
    Response × Ledger :=
  if args.length ≠ 2 then
    (shim.Error (str "Incorrect number of arguments. Expecting 2"), world)
  else
    let carAsBytes := (GetState client world (args.getD 0 [])).1
    let car := (Unmarshal carAsBytes (Car.mk [] [] [] [])).1
    let car := Car.mk car.Make car.Model car.Colour (args.getD 1 [])
    let carAsBytes := Marshal car
    (shim.Success [], (PutState client world (args.getD 0 []) carAsBytes).1)

/-- Method `Invoke`: dispatch on the function name supplied with the invocation. -/
def Invoke (client : LedgerClient) (world : Ledger) (function : GoString)
    (args : List GoString) : Response × Ledger :=
  if function = str "queryCar" then queryCar client world args
  else if function = str "initLedger" then initLedger client world
  else if function = str "createCar" then createCar client world args
  else if function = str "queryAllCars" then queryAllCars client world
  else if function = str "changeCarOwner" then changeCarOwner client world args
  else (shim.Error (str "Invalid Smart Contract function name."), world)

/-- A ledger client whose every `GetState` and `PutState` fails. -/
def failing : LedgerClient :=
  LedgerClient.mk (fun _ => some (str "ledger unavailable"))
    (fun _ _ => some (str "ledger unavailable")) (fun _ _ => none) (fun _ => none)

/-- A ledger client whose `GetStateByRange` fails. -/
def failingRange : LedgerClient :=
  LedgerClient.mk (fun _ => none) (fun _ _ => none) (fun _ _ => some (str "scan unavailable"))
    (fun _ => none)

/-- A ledger client whose range iterator fails on call number `n` of `Next`. -/
def failingNext (n : Nat) : LedgerClient :=
  LedgerClient.mk (fun _ => none) (fun _ _ => none) (fun _ _ => none)
    (fun m => if m = n then some (str "iterator broken") else none)

/-! ## Predicates used in the statements -/

/-- The bytes `pre` are one rune: they are not empty and `DecodeRune` accepts them
with their whole length, whatever follows. -/
def IsRune (pre : GoString) : Prop :=
  pre ≠ [] ∧ ∀ y, (DecodeRune (pre ++ y)).2 = pre.length
    ∧ ¬ ((DecodeRune (pre ++ y)).1 = RuneError ∧ (DecodeRune (pre ++ y)).2 = 1)

/-- The strings the decoder can store from a value are valid UTF-8: the text of a
string, and the text of every string member of an object. -/
def Value.StringsValid : Value → Prop
  | .string t => ValidString t = true
  | .object ms => ∀ m ∈ ms, ∀ t, m.2 = Value.string t → ValidString t = true
  | _ => True

/-- The four fields of a record are valid UTF-8. -/
def Car.Valid (car : Car) : Prop :=
  ValidString car.Make = true ∧ ValidString car.Model = true
    ∧ ValidString car.Colour = true ∧ ValidString car.Owner = true

/-! ## Lemmas on `unicode/utf8` -/

/-- The shapes of a successful multi-byte decoding. -/
theorem DecodeRune_cases (b : Fin 256) (rest : GoString) (hb : ¬ b < 0x80) :
    DecodeRune (b :: rest) = (RuneError, 1)
    ∨ (∃ b1 r1, rest = b1 :: r1 ∧ 0xC2 ≤ b.val ∧ b.val < 0xE0 ∧ 0x80 ≤ b1.val ∧ b1.val ≤ 0xBF
        ∧ ∀ y, DecodeRune (b :: b1 :: y) = (b.val % 32 * 64 + b1.val % 64, 2))
    ∨ (∃ b1 b2 r2, rest = b1 :: b2 :: r2 ∧ 0xE0 ≤ b.val ∧ b.val < 0xF0
        ∧ (b.val = 0xE0 → 0xA0 ≤ b1.val) ∧ (b.val = 0xED → b1.val ≤ 0x9F)
        ∧ 0x80 ≤ b1.val ∧ b1.val ≤ 0xBF ∧ 0x80 ≤ b2.val ∧ b2.val ≤ 0xBF
        ∧ ∀ y, DecodeRune (b :: b1 :: b2 :: y)
            = (b.val % 16 * 4096 + b1.val % 64 * 64 + b2.val % 64, 3))
    ∨ (∃ b1 b2 b3 r3, rest = b1 :: b2 :: b3 :: r3 ∧ 0xF0 ≤ b.val ∧ b.val ≤ 0xF4
        ∧ (b.val = 0xF0 → 0x90 ≤ b1.val) ∧ (b.val = 0xF4 → b1.val ≤ 0x8F)
        ∧ 0x80 ≤ b1.val ∧ b1.val ≤ 0xBF ∧ 0x80 ≤ b2.val ∧ b2.val ≤ 0xBF
        ∧ 0x80 ≤ b3.val ∧ b3.val ≤ 0xBF
        ∧ ∀ y, DecodeRune (b :: b1 :: b2 :: b3 :: y)
            = (b.val % 8 * 262144 + b1.val % 64 * 4096 + b2.val % 64 * 64 + b3.val % 64, 4)) := by
  by_cases h1 : b < 0xC2 ∨ 0xF4 < b
  · left; simp only [DecodeRune, if_neg hb, if_pos h1]
  rcases rest with _ | ⟨b1, r1⟩
  · left; simp only [DecodeRune, if_neg hb, if_neg h1]
  by_cases h2 : b1 < (if b = 0xE0 then 0xA0 else if b = 0xF0 then 0x90 else 0x80)
            ∨ (if b = 0xED then 0x9F else if b = 0xF4 then 0x8F else 0xBF) < b1
  · left; simp only [DecodeRune, if_neg hb, if_neg h1, if_pos h2]
  have hr : (b.val = 0xE0 → 0xA0 ≤ b1.val) ∧ (b.val = 0xF0 → 0x90 ≤ b1.val) ∧ 0x80 ≤ b1.val
      ∧ (b.val = 0xED → b1.val ≤ 0x9F) ∧ (b.val = 0xF4 → b1.val ≤ 0x8F) ∧ b1.val ≤ 0xBF := by
    split_ifs at h2 <;> omega
  by_cases h3 : b < 0xE0
  · right; left
    refine ⟨b1, r1, rfl, ?_, ?_, ?_, ?_, ?_⟩
    on_goal 5 => intro y; simp only [DecodeRune, if_neg hb, if_neg h1, if_neg h2, if_pos h3]
    all_goals omega
  rcases r1 with _ | ⟨b2, r2⟩
  · left; simp only [DecodeRune, if_neg hb, if_neg h1, if_neg h2, if_neg h3]
  by_cases h4 : b2 < 0x80 ∨ 0xBF < b2
  · left; simp only [DecodeRune, if_neg hb, if_neg h1, if_neg h2, if_neg h3, if_pos h4]
  by_cases h5 : b < 0xF0
  · right; right; left
    refine ⟨b1, b2, r2, rfl, ?_, ?_, ?_, ?_, ?_, ?_, ?_, ?_, ?_⟩
    on_goal 9 =>
      intro y; simp only [DecodeRune, if_neg hb, if_neg h1, if_neg h2, if_neg h3, if_neg h4, if_pos h5]
    all_goals omega
  rcases r2 with _ | ⟨b3, r3⟩
  · left; simp only [DecodeRune, if_neg hb, if_neg h1, if_neg h2, if_neg h3, if_neg h4, if_neg h5]
  by_cases h6 : b3 < 0x80 ∨ 0xBF < b3
  · left
    simp only [DecodeRune, if_neg hb, if_neg h1, if_neg h2, if_neg h3, if_neg h4, if_neg h5,
      if_pos h6]
  right; right; right
  refine ⟨b1, b2, b3, r3, rfl, ?_, ?_, ?_, ?_, ?_, ?_, ?_, ?_, ?_, ?_, ?_⟩
  on_goal 11 =>
    intro y; simp only [DecodeRune, if_neg hb, if_neg h1, if_neg h2, if_neg h3, if_neg h4, if_neg h5,
      if_neg h6]
  all_goals omega


/-- Encoding undoes the decoding of a two-byte sequence. -/
theorem EncodeRune_two (b b1 : Fin 256) (h1 : 0xC2 ≤ b.val) (h2 : b.val < 0xE0)
    (h3 : 0x80 ≤ b1.val) (h4 : b1.val ≤ 0xBF) :
    EncodeRune (b.val % 32 * 64 + b1.val % 64) = [b, b1] := by
  unfold EncodeRune
  rw [if_neg (by omega), if_pos (by omega)]
  simp only [List.cons.injEq, and_true, Fin.ext_iff, Fin.ofNat]
  omega

/-- Encoding undoes the decoding of a three-byte sequence. -/
theorem EncodeRune_three (b b1 b2 : Fin 256) (h1 : 0xE0 ≤ b.val) (h2 : b.val < 0xF0)
    (ha : b.val = 0xE0 → 0xA0 ≤ b1.val) (hb : b.val = 0xED → b1.val ≤ 0x9F)
    (h3 : 0x80 ≤ b1.val) (h4 : b1.val ≤ 0xBF) (h5 : 0x80 ≤ b2.val) (h6 : b2.val ≤ 0xBF) :
    EncodeRune (b.val % 16 * 4096 + b1.val % 64 * 64 + b2.val % 64) = [b, b1, b2] := by
  unfold EncodeRune
  rw [if_neg (by omega), if_neg (by omega), if_neg (by omega), if_pos (by omega)]
  simp only [List.cons.injEq, and_true, Fin.ext_iff, Fin.ofNat]
  omega

/-- Encoding undoes the decoding of a four-byte sequence. -/
theorem EncodeRune_four (b b1 b2 b3 : Fin 256) (h1 : 0xF0 ≤ b.val) (h2 : b.val ≤ 0xF4)
    (ha : b.val = 0xF0 → 0x90 ≤ b1.val) (hb : b.val = 0xF4 → b1.val ≤ 0x8F)
    (h3 : 0x80 ≤ b1.val) (h4 : b1.val ≤ 0xBF) (h5 : 0x80 ≤ b2.val) (h6 : b2.val ≤ 0xBF)
    (h7 : 0x80 ≤ b3.val) (h8 : b3.val ≤ 0xBF) :
    EncodeRune (b.val % 8 * 262144 + b1.val % 64 * 4096 + b2.val % 64 * 64 + b3.val % 64)
      = [b, b1, b2, b3] := by
  unfold EncodeRune
  rw [if_neg (by omega), if_neg (by omega), if_neg (by omega), if_neg (by omega)]
  simp only [List.cons.injEq, and_true, Fin.ext_iff, Fin.ofNat]
  omega

/-- A valid multi-byte rune at the head of a string: the string splits into the
bytes of the rune and the rest, the bytes are what `EncodeRune` gives for the
rune, and decoding looks at nothing beyond them. -/
theorem DecodeRune_valid (b : Fin 256) (rest : GoString) (hb : ¬ b < 0x80)
    (hv : ¬ ((DecodeRune (b :: rest)).1 = RuneError ∧ (DecodeRune (b :: rest)).2 = 1)) :
    ∃ pre post, (b :: rest).take (DecodeRune (b :: rest)).2 = pre
      ∧ rest.drop ((DecodeRune (b :: rest)).2 - 1) = post
      ∧ b :: rest = pre ++ post
      ∧ pre.length = (DecodeRune (b :: rest)).2
      ∧ 1 ≤ pre.length
      ∧ (∃ c t, pre = c :: t ∧ ¬ c < 0x80)
      ∧ EncodeRune (DecodeRune (b :: rest)).1 = pre
      ∧ ∀ y, DecodeRune (pre ++ y) = DecodeRune (b :: rest) := by
  rcases DecodeRune_cases b rest hb with h | ⟨b1, r1, rfl, h1, h2, h3, h4, h⟩
    | ⟨b1, b2, r2, rfl, h1, h2, ha, hc, h3, h4, h5, h6, h⟩
    | ⟨b1, b2, b3, r3, rfl, h1, h2, ha, hc, h3, h4, h5, h6, h7, h8, h⟩
  · rw [h] at hv
    exact absurd ⟨rfl, rfl⟩ hv
  · refine ⟨[b, b1], r1, ?_, ?_, rfl, ?_, by simp, ⟨b, [b1], rfl, hb⟩, ?_, ?_⟩
    · rw [h r1]; rfl
    · rw [h r1]; rfl
    · rw [h r1]; rfl
    · rw [h r1]; exact EncodeRune_two b b1 h1 h2 h3 h4
    · intro y; rw [h r1]; exact h y
  · refine ⟨[b, b1, b2], r2, ?_, ?_, rfl, ?_, by simp, ⟨b, [b1, b2], rfl, hb⟩, ?_, ?_⟩
    · rw [h r2]; rfl
    · rw [h r2]; rfl
    · rw [h r2]; rfl
    · rw [h r2]; exact EncodeRune_three b b1 b2 h1 h2 ha hc h3 h4 h5 h6
    · intro y; rw [h r2]; exact h y
  · refine ⟨[b, b1, b2, b3], r3, ?_, ?_, rfl, ?_, by simp, ⟨b, [b1, b2, b3], rfl, hb⟩, ?_, ?_⟩
    · rw [h r3]; rfl
    · rw [h r3]; rfl
    · rw [h r3]; rfl
    · rw [h r3]; exact EncodeRune_four b b1 b2 b3 h1 h2 ha hc h3 h4 h5 h6 h7 h8
    · intro y; rw [h r3]; exact h y

/-! ## Lemmas on the decoder: a string written by the encoder is read back -/

/-- Unfolding of `prepend` on a result. -/
theorem prepend_some (pre x r : GoString) : prepend pre (some (x, r)) = some (pre ++ x, r) := rfl

/-- One step of the decoder on a printable ASCII byte other than quote and backslash. -/
theorem unquoteLoop_plain (f : Nat) (c : Fin 256) (s : GoString) (h1 : ¬ c < 0x20)
    (h2 : c < 0x80) (h3 : c ≠ 0x22) (h4 : c ≠ 0x5C) :
    unquoteLoop (f + 1) (c :: s) = prepend [c] (unquoteLoop f s) := by
  simp only [unquoteLoop, if_neg h3, if_neg h4, if_neg h1, if_pos h2]

/-- One step of the decoder on a two-byte escape. -/
theorem unquoteLoop_escape (f : Nat) (e b : Fin 256) (s : GoString) (h1 : e ≠ 0x75)
    (h2 : unescape e = some b) :
    unquoteLoop (f + 1) (0x5C :: e :: s) = prepend [b] (unquoteLoop f s) := by
  simp only [unquoteLoop, if_neg h1, h2]
  rfl

/-- One step of the decoder on a six-byte escape that is not a surrogate. -/
theorem unquoteLoop_u (f : Nat) (a b c d : Fin 256) (rr : Nat) (s : GoString)
    (h1 : hex4 [a, b, c, d] = some rr) (h2 : ¬ (0xD800 ≤ rr ∧ rr < 0xE000)) :
    unquoteLoop (f + 1) (0x5C :: 0x75 :: a :: b :: c :: d :: s)
      = prepend (EncodeRune rr) (unquoteLoop f s) := by
  have h : hex4 (a :: b :: c :: d :: s) = some rr := by
    rw [← h1]; simp only [hex4]
  simp only [unquoteLoop, h, if_neg h2]
  rfl

/-- One step of the decoder on a byte outside ASCII. -/
theorem unquoteLoop_rune (f : Nat) (c : Fin 256) (s : GoString) (h : ¬ c < 0x80) :
    unquoteLoop (f + 1) (c :: s)
      = prepend (EncodeRune (DecodeRune (c :: s)).1)
          (unquoteLoop f (s.drop ((DecodeRune (c :: s)).2 - 1))) := by
  have h1 : c ≠ 0x22 := by omega
  have h2 : c ≠ 0x5C := by omega
  have h3 : ¬ c < 0x20 := by omega
  simp only [unquoteLoop, if_neg h1, if_neg h2, if_neg h3, if_neg h]

set_option maxRecDepth 100000 in
/-- The two hex digits the encoder writes for an ASCII byte are read back as that byte. -/
theorem hex4_hex : ∀ b : Fin 256, b < 0x80 →
    hex4 [0x30, 0x30, hex (b.val / 16), hex (b.val % 16)] = some b.val := by
  decide

/-- An ASCII rune is encoded as its byte. -/
theorem EncodeRune_ascii (b : Fin 256) (h : b < 0x80) : EncodeRune b.val = [b] := by
  unfold EncodeRune
  rw [if_pos (by omega)]
  simp only [List.cons.injEq, and_true, Fin.ext_iff, Fin.ofNat]
  omega

/-- What the encoder copies unescaped, the decoder copies too. -/
theorem htmlSafeSet_true (b : Fin 256) (h : htmlSafeSet b = true) :
    ¬ b < 0x20 ∧ b < 0x80 ∧ b ≠ 0x22 ∧ b ≠ 0x5C := by
  simp only [htmlSafeSet, decide_eq_true_eq] at h
  omega

/-- The decoder reads the body of a string written by the encoder, up to the closing
quote, as the string coerced to valid UTF-8, given fuel for every byte written. -/
theorem unquoteLoop_encode : ∀ (fuel : Nat) (s rest : GoString) (f : Nat),
    s.length ≤ fuel → (encodeStringLoop fuel s).length < f →
    unquoteLoop f (encodeStringLoop fuel s ++ 0x22 :: rest) = some (coerceLoop fuel s, rest) := by
  intro fuel
  induction fuel with
  | zero =>
    intro s rest f _ hf
    obtain ⟨f1, rfl⟩ : ∃ f1, f = f1 + 1 := ⟨f - 1, by omega⟩
    simp [encodeStringLoop, coerceLoop, unquoteLoop]
  | succ fuel ih =>
    intro s rest f hs hf
    obtain ⟨f1, rfl⟩ : ∃ f1, f = f1 + 1 := ⟨f - 1, by omega⟩
    rcases s with _ | ⟨b, s1⟩
    · simp [encodeStringLoop, coerceLoop, unquoteLoop]
    have hs1 : s1.length ≤ fuel := by simpa using hs
    by_cases hb : b < 0x80
    · by_cases hsafe : htmlSafeSet b = true
      · simp only [encodeStringLoop, coerceLoop, if_pos hb, if_pos hsafe, List.cons_append] at hf ⊢
        obtain ⟨k1, k2, k3, k4⟩ := htmlSafeSet_true b hsafe
        rw [unquoteLoop_plain f1 b _ k1 k2 k3 k4, ih s1 rest f1 hs1 (by simpa using hf),
          prepend_some]
        rfl
      · by_cases hq : b = 0x5C ∨ b = 0x22
        · simp only [encodeStringLoop, coerceLoop, if_pos hb, if_neg hsafe, if_pos hq,
            List.cons_append] at hf ⊢
          have hu : unescape b = some b := by
            rcases hq with h | h <;> subst h <;> rfl
          rw [unquoteLoop_escape f1 b b _ (by omega) hu,
            ih s1 rest f1 hs1 (by simp only [List.length_cons] at hf; omega), prepend_some]
          rfl
        by_cases hn : b = 0x0A
        · simp only [encodeStringLoop, coerceLoop, if_pos hb, if_neg hsafe, if_neg hq, if_pos hn,
            List.cons_append] at hf ⊢
          rw [unquoteLoop_escape f1 0x6E 0x0A _ (by decide) (by rfl),
            ih s1 rest f1 hs1 (by simp only [List.length_cons] at hf; omega), prepend_some, hn]
          rfl
        by_cases hr : b = 0x0D
        · simp only [encodeStringLoop, coerceLoop, if_pos hb, if_neg hsafe, if_neg hq, if_neg hn,
            if_pos hr, List.cons_append] at hf ⊢
          rw [unquoteLoop_escape f1 0x72 0x0D _ (by decide) (by rfl),
            ih s1 rest f1 hs1 (by simp only [List.length_cons] at hf; omega), prepend_some, hr]
          rfl
        by_cases ht : b = 0x09
        · simp only [encodeStringLoop, coerceLoop, if_pos hb, if_neg hsafe, if_neg hq, if_neg hn,
            if_neg hr, if_pos ht, List.cons_append] at hf ⊢
          rw [unquoteLoop_escape f1 0x74 0x09 _ (by decide) (by rfl),
            ih s1 rest f1 hs1 (by simp only [List.length_cons] at hf; omega), prepend_some, ht]
          rfl
        simp only [encodeStringLoop, coerceLoop, if_pos hb, if_neg hsafe, if_neg hq, if_neg hn,
          if_neg hr, if_neg ht, List.cons_append] at hf ⊢
        rw [unquoteLoop_u f1 _ _ _ _ b.val _ (hex4_hex b hb) (by omega),
          ih s1 rest f1 hs1 (by simp only [List.length_cons] at hf; omega), prepend_some,
          EncodeRune_ascii b hb]
        rfl
    · by_cases hv : (DecodeRune (b :: s1)).1 = RuneError ∧ (DecodeRune (b :: s1)).2 = 1
      · simp only [encodeStringLoop, coerceLoop, if_neg hb, if_pos hv, List.cons_append] at hf ⊢
        rw [unquoteLoop_u f1 _ _ _ _ 0xFFFD _ (by decide) (by decide),
          ih s1 rest f1 hs1 (by simp only [List.length_cons] at hf; omega), prepend_some]
        rfl
      obtain ⟨pre, post, htake, hdrop, hsplit, hlen, hpos, ⟨c, t, hct, hc⟩, henc, hdec⟩ :=
        DecodeRune_valid b s1 hb hv
      have hpost : post.length ≤ fuel := by
        have := congrArg List.length hsplit
        simp only [List.length_cons, List.length_append] at this
        omega
      by_cases hls : (DecodeRune (b :: s1)).1 = 0x2028 ∨ (DecodeRune (b :: s1)).1 = 0x2029
      · simp only [encodeStringLoop, coerceLoop, if_neg hb, if_neg hv, if_pos hls, htake, hdrop,
          List.cons_append] at hf ⊢
        have h4 : hex4 [0x32, 0x30, 0x32, hex ((DecodeRune (b :: s1)).1 % 16)]
            = some (DecodeRune (b :: s1)).1 := by
          rcases hls with h | h <;> rw [h] <;> decide
        rw [unquoteLoop_u f1 _ _ _ _ _ _ h4 (by omega),
          ih post rest f1 hpost (by simp only [List.length_cons] at hf; omega), prepend_some,
          henc]
      · simp only [encodeStringLoop, coerceLoop, if_neg hb, if_neg hv, if_neg hls, htake, hdrop]
          at hf ⊢
        have hd := hdec (encodeStringLoop fuel post ++ 0x22 :: rest)
        subst hct
        simp only [List.cons_append, List.append_assoc] at hd hf ⊢
        rw [unquoteLoop_rune f1 c _ hc, hd, henc]
        have hdr : List.drop ((DecodeRune (b :: s1)).2 - 1)
            (t ++ (encodeStringLoop fuel post ++ 0x22 :: rest))
            = encodeStringLoop fuel post ++ 0x22 :: rest := by
          rw [← hlen]
          simp
        rw [hdr, ih post rest f1 hpost (by simp only [List.length_cons, List.length_append] at hf; omega),
          prepend_some]
        simp

/-- The decoder reads a string written by the encoder as the string coerced to valid UTF-8. -/
theorem unquote_encode (s rest : GoString) :
    unquote (encodeStringLoop s.length s ++ 0x22 :: rest) = some (ToValidUTF8 s, rest) := by
  unfold unquote ToValidUTF8
  exact unquoteLoop_encode s.length s rest _ (le_refl _) (by simp)

/-- Scanning a value that is a string written by the encoder. -/
theorem scan_value_string (n : Nat) (s rest : GoString) :
    scan (n + 1) .value (0x22 :: (encodeStringLoop s.length s ++ 0x22 :: rest))
      = some (.string (ToValidUTF8 s), rest) := by
  simp [scan, unquote_encode]

/-- Scanning a member written by the encoder that is followed by another member. -/
theorem scan_member_more (n : Nat) (k v more : GoString) (ms : List (GoString × Value))
    (r3 : GoString) (h : scan (n + 1) .members (0x22 :: more) = some (.object ms, r3)) :
    scan (n + 2) .members
        (0x22 :: (encodeStringLoop k.length k ++ 0x22 :: 0x3A :: 0x22
          :: (encodeStringLoop v.length v ++ 0x22 :: 0x2C :: 0x22 :: more)))
      = some (.object ((ToValidUTF8 k, .string (ToValidUTF8 v)) :: ms), r3) := by
  rw [scan]
  simp [unquote_encode, skipSpace, isSpace, scan_value_string, h]

/-- Scanning the last member written by the encoder. -/
theorem scan_member_last (n : Nat) (k v rest : GoString) :
    scan (n + 2) .members
        (0x22 :: (encodeStringLoop k.length k ++ 0x22 :: 0x3A :: 0x22
          :: (encodeStringLoop v.length v ++ 0x22 :: 0x7D :: rest)))
      = some (.object [(ToValidUTF8 k, .string (ToValidUTF8 v))], rest) := by
  rw [scan]
  simp [unquote_encode, skipSpace, isSpace, scan_value_string]

/-- Scanning the encoding of a record: the four members in order, nothing left over. -/
theorem scan_Marshal (n : Nat) (car : Car) :
    scan (n + 6) .value (Marshal car)
      = some (.object
          [(str "make", .string (ToValidUTF8 car.Make)),
            (str "model", .string (ToValidUTF8 car.Model)),
            (str "colour", .string (ToValidUTF8 car.Colour)),
            (str "owner", .string (ToValidUTF8 car.Owner))], []) := by
  have e1 : ToValidUTF8 (str "make") = str "make" := by decide
  have e2 : ToValidUTF8 (str "model") = str "model" := by decide
  have e3 : ToValidUTF8 (str "colour") = str "colour" := by decide
  have e4 : ToValidUTF8 (str "owner") = str "owner" := by decide
  unfold Marshal encodeString
  simp only [List.cons_append, List.append_assoc, List.nil_append]
  have h4 := scan_member_last n (str "owner") car.Owner []
  have h3 := scan_member_more (n + 1) (str "colour") car.Colour _ _ _ h4
  have h2 := scan_member_more (n + 2) (str "model") car.Model _ _ _ h3
  have h1 := scan_member_more (n + 3) (str "make") car.Make _ _ _ h2
  rw [e1] at h1
  rw [e2] at h1
  rw [e3] at h1
  rw [e4] at h1
  rw [scan]
  simp only [skipSpace, isSpace]
  simpa using h1

/-- The fuel of `Unmarshal` on an encoding is enough for its four members. -/
theorem Marshal_length (car : Car) : 6 ≤ 2 * (Marshal car).length + 2 := by
  have h : 2 ≤ (Marshal car).length := by
    unfold Marshal encodeString
    simp only [List.length_cons, List.length_append]
    omega
  omega

/-- An encoding starts with its opening brace, not with white space. -/
theorem skipSpace_Marshal (car : Car) : skipSpace (Marshal car) = Marshal car := by
  unfold Marshal
  simp [skipSpace, isSpace]

/-- Decoding the encoding of a record gives the record coerced to valid UTF-8. -/
theorem Unmarshal_Marshal (car c0 : Car) :
    Unmarshal (Marshal car) c0
      = (Car.mk (ToValidUTF8 car.Make) (ToValidUTF8 car.Model) (ToValidUTF8 car.Colour)
          (ToValidUTF8 car.Owner), none) := by
  obtain ⟨n, hn⟩ : ∃ n, 2 * (Marshal car).length + 2 = n + 6 :=
    ⟨2 * (Marshal car).length + 2 - 6, by have := Marshal_length car; omega⟩
  have f1 : findField (str "make") = some 0 := by decide
  have f2 : findField (str "model") = some 1 := by decide
  have f3 : findField (str "colour") = some 2 := by decide
  have f4 : findField (str "owner") = some 3 := by decide
  unfold Unmarshal
  rw [skipSpace_Marshal, hn, scan_Marshal]
  simp [skipSpace, storeMember, f1, f2, f3, f4, Car.setField]

/-! ## Valid UTF-8 is left as it is -/

/-- Decoding at an ASCII byte. -/
theorem DecodeRune_ascii (b : Fin 256) (rest : GoString) (h : b < 0x80) :
    DecodeRune (b :: rest) = (b.val, 1) := by
  simp only [DecodeRune, if_pos h]

/-- The coercion loop copies a valid string. -/
theorem coerceLoop_valid : ∀ (fuel : Nat) (s : GoString), s.length ≤ fuel →
    validLoop fuel s = true → coerceLoop fuel s = s := by
  intro fuel
  induction fuel with
  | zero =>
    intro s hs _
    have : s = [] := List.eq_nil_of_length_eq_zero (by omega)
    subst this
    rfl
  | succ fuel ih =>
    intro s hs hv
    rcases s with _ | ⟨b, s1⟩
    · rfl
    have hs1 : s1.length ≤ fuel := by simpa using hs
    by_cases hinv : (DecodeRune (b :: s1)).1 = RuneError ∧ (DecodeRune (b :: s1)).2 = 1
    · simp [validLoop, hinv] at hv
    simp only [validLoop, if_neg hinv] at hv
    by_cases hb : b < 0x80
    · simp only [coerceLoop, if_pos hb]
      rw [DecodeRune_ascii b s1 hb] at hv
      simp only [Nat.sub_self, List.drop_zero] at hv
      rw [ih s1 hs1 hv]
    · obtain ⟨pre, post, htake, hdrop, hsplit, hlen, hpos, _, _, _⟩ :=
        DecodeRune_valid b s1 hb hinv
      have hpost : post.length ≤ fuel := by
        have := congrArg List.length hsplit
        simp only [List.length_cons, List.length_append] at this
        omega
      simp only [coerceLoop, if_neg hb, if_neg hinv, htake, hdrop]
      rw [hdrop] at hv
      rw [ih post hpost hv, hsplit]

/-- Coercion to valid UTF-8 leaves a valid string as it is. -/
theorem ToValidUTF8_valid (s : GoString) (h : ValidString s = true) : ToValidUTF8 s = s :=
  coerceLoop_valid s.length s (le_refl _) h

/-- Decoding the encoding of a record of valid UTF-8 strings gives the record. -/
theorem Unmarshal_Marshal_valid (car c0 : Car) (h1 : ValidString car.Make = true)
    (h2 : ValidString car.Model = true) (h3 : ValidString car.Colour = true)
    (h4 : ValidString car.Owner = true) :
    Unmarshal (Marshal car) c0 = (car, none) := by
  rw [Unmarshal_Marshal, ToValidUTF8_valid _ h1, ToValidUTF8_valid _ h2, ToValidUTF8_valid _ h3,
    ToValidUTF8_valid _ h4]

/-! ## Lemmas on the ledger and the handlers -/

/-- Reading a key after writing it gives the value written. -/
theorem Ledger.get_put_same (world : Ledger) (k v : GoString) :
    (world.put k v).get k = some v := by
  induction world with
  | nil => simp [Ledger.put, Ledger.get]
  | cons e rest ih =>
    obtain ⟨k0, v0⟩ := e
    by_cases h : k0 = k
    · simp [Ledger.put, Ledger.get, h]
    · by_cases h2 : strLess k k0 = true
      · simp [Ledger.put, Ledger.get, h, h2]
      · simp [Ledger.put, Ledger.get, h, h2, ih]

/-- Writing a key does not change what is read at another key. -/
theorem Ledger.get_put_ne (world : Ledger) (k v k1 : GoString) (hne : k ≠ k1) :
    (world.put k v).get k1 = world.get k1 := by
  induction world with
  | nil => simp [Ledger.put, Ledger.get, hne]
  | cons e rest ih =>
    obtain ⟨k0, v0⟩ := e
    by_cases h : k0 = k
    · subst h
      simp [Ledger.put, Ledger.get, hne]
    · by_cases h2 : strLess k k0 = true
      · simp [Ledger.put, Ledger.get, h, h2, hne]
      · simp [Ledger.put, Ledger.get, h, h2, ih]

/-- Reading after writing, in one equation. -/
theorem Ledger.get_put (world : Ledger) (k v k1 : GoString) :
    (world.put k v).get k1 = if k = k1 then some v else world.get k1 := by
  by_cases h : k = k1
  · subst h
    simp [Ledger.get_put_same]
  · simp [h, Ledger.get_put_ne _ _ _ _ h]

/-- Reading after a sequence of writes: the last write to the key, else the old value. -/
theorem Ledger.get_foldl_put (kvs : List (GoString × GoString)) (world : Ledger) (k : GoString) :
    (kvs.foldl (fun w kv => Ledger.put w kv.1 kv.2) world).get k
      = (Ledger.get kvs.reverse k).orElse (fun _ => world.get k) := by
  induction kvs using List.reverseRecOn with
  | nil => simp [Ledger.get]
  | append_singleton l e ih =>
    obtain ⟨k0, v0⟩ := e
    simp only [List.foldl_append, List.foldl_cons, List.foldl_nil, List.reverse_append,
      List.reverse_cons, List.reverse_nil, List.nil_append, List.singleton_append,
      Ledger.get_put, Ledger.get, ih]
    by_cases h : k0 = k <;> simp [h]

/-- Method `queryCar` with one argument and a ledger client that does not fail. -/
theorem queryCar_single (world : Ledger) (k : GoString) :
    queryCar reliable world [k] = (shim.Success ((world.get k).getD []), world) := by
  simp [queryCar, GetState, reliable]

/-- The ledger after `initLedger`, as ten writes in ascending index order. -/
theorem initLedger_world (world : Ledger) :
    (initLedger reliable world).2
      = (List.range 10).foldl
          (fun w i => Ledger.put w (str "CAR" ++ Itoa i) (Marshal (cars.getD i (Car.mk [] [] [] []))))
          world := by
  rfl


/-- Method `createCar` with five arguments. -/
theorem createCar_five (client : LedgerClient) (world : Ledger)
    (k make model colour owner : GoString) :
    createCar client world [k, make, model, colour, owner]
      = (shim.Success [],
          (PutState client world k (Marshal (Car.mk make model colour owner))).1) := by
  simp [createCar]

/-- Stub call `PutState` when it does not fail. -/
theorem PutState_reliable (world : Ledger) (k v : GoString) :
    PutState reliable world k v = (world.put k v, none) := rfl

/-- Stub call `GetState` when it does not fail. -/
theorem GetState_reliable (world : Ledger) (k : GoString) :
    GetState reliable world k = ((world.get k).getD [], none) := rfl

/-- Method `changeCarOwner` with two arguments. -/
theorem changeCarOwner_two (client : LedgerClient) (world : Ledger) (k newOwner : GoString) :
    changeCarOwner client world [k, newOwner]
      = (shim.Success [],
          (PutState client world k
            (Marshal (Car.mk
              (Unmarshal (GetState client world k).1 (Car.mk [] [] [] [])).1.Make
              (Unmarshal (GetState client world k).1 (Car.mk [] [] [] [])).1.Model
              (Unmarshal (GetState client world k).1 (Car.mk [] [] [] [])).1.Colour
              newOwner))).1) := by
  simp [changeCarOwner]


/-- A failure is not a success: the status differs. -/
theorem shim_Error_ne_Success (m p : GoString) : shim.Error m ≠ shim.Success p := by
  simp [shim.Error, shim.Success]

/-- The scan loop ends without error when no `Next` fails. -/
theorem queryAllCarsLoop_reliable (rows : Ledger) (n : Nat) (written : Bool) (buffer : GoString) :
    ∃ out, queryAllCarsLoop reliable rows n written buffer = .ok out := by
  induction rows generalizing n written buffer with
  | nil => exact ⟨buffer, rfl⟩
  | cons kv rest ih =>
    simp only [queryAllCarsLoop, reliable]
    exact ih _ _ _

/-! ## The decoder outputs valid UTF-8 -/

/-- The validity loop does not depend on fuel beyond the length of the string. -/
theorem validLoop_fuel : ∀ (f1 f2 : Nat) (s : GoString), s.length ≤ f1 → s.length ≤ f2 →
    validLoop f1 s = validLoop f2 s := by
  intro f1
  induction f1 with
  | zero =>
    intro f2 s h1 _
    have : s = [] := List.eq_nil_of_length_eq_zero (by omega)
    subst this
    cases f2 <;> rfl
  | succ f1 ih =>
    intro f2 s h1 h2
    rcases s with _ | ⟨b, rest⟩
    · cases f2 <;> rfl
    obtain ⟨g, rfl⟩ : ∃ g, f2 = g + 1 := ⟨f2 - 1, by simp at h2; omega⟩
    simp only [validLoop]
    split
    · rfl
    · apply ih
      · simp only [List.length_drop, List.length_cons] at h1 ⊢; omega
      · simp only [List.length_drop, List.length_cons] at h2 ⊢; omega

/-- The empty string is valid. -/
theorem ValidString_nil : ValidString [] = true := rfl

/-- A rune in front of a valid string gives a valid string. -/
theorem ValidString_append (pre s : GoString) (hp : IsRune pre) (hs : ValidString s = true) :
    ValidString (pre ++ s) = true := by
  obtain ⟨hne, hd⟩ := hp
  rcases pre with _ | ⟨c, t⟩
  · exact absurd rfl hne
  obtain ⟨h1, h2⟩ := hd s
  unfold ValidString at hs ⊢
  simp only [List.cons_append, List.length_cons, List.length_append] at h1 h2 ⊢
  simp only [validLoop]
  rw [if_neg h2, h1]
  have hdrop : List.drop (t.length + 1 - 1) (t ++ s) = s := by simp
  rw [hdrop, validLoop_fuel (t.length + s.length) s.length s (by omega) (le_refl _)]
  exact hs

/-- Decoding a well-formed two-byte sequence. -/
theorem DecodeRune_two (b b1 : Fin 256) (y : GoString) (h1 : 0xC2 ≤ b.val) (h2 : b.val < 0xE0)
    (h3 : 0x80 ≤ b1.val) (h4 : b1.val ≤ 0xBF) :
    DecodeRune (b :: b1 :: y) = (b.val % 32 * 64 + b1.val % 64, 2) := by
  have c1 : ¬ b < 0x80 := by omega
  have c2 : ¬ (b < 0xC2 ∨ 0xF4 < b) := by omega
  have c3 : ¬ (b1 < (if b = 0xE0 then 0xA0 else if b = 0xF0 then 0x90 else 0x80)
      ∨ (if b = 0xED then 0x9F else if b = 0xF4 then 0x8F else 0xBF) < b1) := by
    split_ifs <;> omega
  have c4 : b < 0xE0 := by omega
  simp only [DecodeRune, if_neg c1, if_neg c2, if_neg c3, if_pos c4]

/-- Decoding a well-formed three-byte sequence. -/
theorem DecodeRune_three (b b1 b2 : Fin 256) (y : GoString) (h1 : 0xE0 ≤ b.val)
    (h2 : b.val < 0xF0) (ha : b.val = 0xE0 → 0xA0 ≤ b1.val) (hb : b.val = 0xED → b1.val ≤ 0x9F)
    (h3 : 0x80 ≤ b1.val) (h4 : b1.val ≤ 0xBF) (h5 : 0x80 ≤ b2.val) (h6 : b2.val ≤ 0xBF) :
    DecodeRune (b :: b1 :: b2 :: y)
      = (b.val % 16 * 4096 + b1.val % 64 * 64 + b2.val % 64, 3) := by
  have c1 : ¬ b < 0x80 := by omega
  have c2 : ¬ (b < 0xC2 ∨ 0xF4 < b) := by omega
  have c3 : ¬ (b1 < (if b = 0xE0 then 0xA0 else if b = 0xF0 then 0x90 else 0x80)
      ∨ (if b = 0xED then 0x9F else if b = 0xF4 then 0x8F else 0xBF) < b1) := by
    split_ifs <;> omega
  have c4 : ¬ b < 0xE0 := by omega
  have c5 : ¬ (b2 < 0x80 ∨ 0xBF < b2) := by omega
  have c6 : b < 0xF0 := by omega
  simp only [DecodeRune, if_neg c1, if_neg c2, if_neg c3, if_neg c4, if_neg c5, if_pos c6]

/-- Decoding a well-formed four-byte sequence. -/
theorem DecodeRune_four (b b1 b2 b3 : Fin 256) (y : GoString) (h1 : 0xF0 ≤ b.val)
    (h2 : b.val ≤ 0xF4) (ha : b.val = 0xF0 → 0x90 ≤ b1.val) (hb : b.val = 0xF4 → b1.val ≤ 0x8F)
    (h3 : 0x80 ≤ b1.val) (h4 : b1.val ≤ 0xBF) (h5 : 0x80 ≤ b2.val) (h6 : b2.val ≤ 0xBF)
    (h7 : 0x80 ≤ b3.val) (h8 : b3.val ≤ 0xBF) :
    DecodeRune (b :: b1 :: b2 :: b3 :: y)
      = (b.val % 8 * 262144 + b1.val % 64 * 4096 + b2.val % 64 * 64 + b3.val % 64, 4) := by
  have c1 : ¬ b < 0x80 := by omega
  have c2 : ¬ (b < 0xC2 ∨ 0xF4 < b) := by omega
  have c3 : ¬ (b1 < (if b = 0xE0 then 0xA0 else if b = 0xF0 then 0x90 else 0x80)
      ∨ (if b = 0xED then 0x9F else if b = 0xF4 then 0x8F else 0xBF) < b1) := by
    split_ifs <;> omega
  have c4 : ¬ b < 0xE0 := by omega
  have c5 : ¬ (b2 < 0x80 ∨ 0xBF < b2) := by omega
  have c6 : ¬ b < 0xF0 := by omega
  have c7 : ¬ (b3 < 0x80 ∨ 0xBF < b3) := by omega
  simp only [DecodeRune, if_neg c1, if_neg c2, if_neg c3, if_neg c4, if_neg c5, if_neg c6,
    if_neg c7]

/-- An ASCII byte is a rune. -/
theorem IsRune_ascii (b : Fin 256) (h : b < 0x80) : IsRune [b] := by
  refine ⟨by simp, fun y => ?_⟩
  rw [List.singleton_append, DecodeRune_ascii b y h]
  refine ⟨rfl, ?_⟩
  simp only [RuneError]
  omega

/-- A number below 256 as a byte. -/
theorem ofNat_val (x : Nat) (h : x < 256) : (Fin.ofNat x : Fin 256).val = x := by
  simp only [Fin.ofNat]
  omega

/-- What `EncodeRune` writes is a rune, for every argument. -/
theorem IsRune_EncodeRune (r : Nat) : IsRune (EncodeRune r) := by
  unfold EncodeRune
  split_ifs with h1 h2 h3 h4
  · exact IsRune_ascii _ (by have := ofNat_val r (by omega); omega)
  · refine ⟨by simp, fun y => ?_⟩
    have e0 := ofNat_val (0xC0 + r / 64) (by omega)
    have e1 := ofNat_val (0x80 + r % 64) (by omega)
    simp only [List.cons_append, List.nil_append]
    rw [DecodeRune_two _ _ y (by omega) (by omega) (by omega) (by omega)]
    simp [RuneError]
  · refine ⟨by simp, fun y => ?_⟩
    simp only [List.cons_append, List.nil_append]
    rw [DecodeRune_three _ _ _ y (by decide) (by decide) (by decide) (by decide) (by decide)
      (by decide) (by decide) (by decide)]
    simp [RuneError]
  · refine ⟨by simp, fun y => ?_⟩
    have e0 := ofNat_val (0xE0 + r / 4096) (by omega)
    have e1 := ofNat_val (0x80 + r / 64 % 64) (by omega)
    have e2 := ofNat_val (0x80 + r % 64) (by omega)
    simp only [List.cons_append, List.nil_append]
    rw [DecodeRune_three _ _ _ y (by omega) (by omega) (by omega) (by omega) (by omega)
      (by omega) (by omega) (by omega)]
    simp [RuneError]
  · refine ⟨by simp, fun y => ?_⟩
    have e0 := ofNat_val (0xF0 + r / 262144) (by omega)
    have e1 := ofNat_val (0x80 + r / 4096 % 64) (by omega)
    have e2 := ofNat_val (0x80 + r / 64 % 64) (by omega)
    have e3 := ofNat_val (0x80 + r % 64) (by omega)
    simp only [List.cons_append, List.nil_append]
    rw [DecodeRune_four _ _ _ _ y (by omega) (by omega) (by omega) (by omega) (by omega)
      (by omega) (by omega) (by omega) (by omega) (by omega)]
    simp [RuneError]

/-- A result of `prepend` comes from a result with the text put in front. -/
theorem prepend_eq_some (pre : GoString) (r : Option (GoString × GoString))
    (out rest : GoString) (h : prepend pre r = some (out, rest)) :
    ∃ o, r = some (o, rest) ∧ out = pre ++ o := by
  rcases r with _ | ⟨o, q⟩
  · simp [prepend] at h
  · simp only [prepend, Option.map_some', Option.some.injEq, Prod.mk.injEq] at h
    obtain ⟨h1, h2⟩ := h
    subst h2
    exact ⟨o, rfl, h1.symm⟩

/-- The single-character escapes stand for ASCII bytes. -/
theorem unescape_ascii (e b : Fin 256) (h : unescape e = some b) : b < 0x80 := by
  unfold unescape at h
  split_ifs at h <;> simp only [Option.some.injEq, reduceCtorEq] at h <;> omega

/-- Every string the decoder unquotes is valid UTF-8. -/
theorem unquoteLoop_valid : ∀ (f : Nat) (s out rest : GoString),
    unquoteLoop f s = some (out, rest) → ValidString out = true := by
  intro f
  induction f with
  | zero => intro s out rest h; simp [unquoteLoop] at h
  | succ f ih =>
    intro s out rest h
    rcases s with _ | ⟨c, s⟩
    · simp [unquoteLoop] at h
    have step : ∀ (pre s1 : GoString), IsRune pre →
        prepend pre (unquoteLoop f s1) = some (out, rest) → ValidString out = true := by
      intro pre s1 hp hq
      obtain ⟨o, ho, rfl⟩ := prepend_eq_some _ _ _ _ hq
      exact ValidString_append pre o hp (ih s1 o rest ho)
    simp only [unquoteLoop] at h
    split_ifs at h with h1 h2 h3 h4
    · simp only [Option.some.injEq, Prod.mk.injEq] at h
      rw [← h.1]; rfl
    · rcases s with _ | ⟨e, s1⟩
      · simp at h
      simp only at h
      split_ifs at h with h5
      · split at h
        · simp at h
        · split_ifs at h with h6
          · split at h
            · exact step _ _ (IsRune_EncodeRune _) h
            · split_ifs at h
              · exact step _ _ (IsRune_EncodeRune _) h
              · exact step _ _ (IsRune_EncodeRune _) h
          · exact step _ _ (IsRune_EncodeRune _) h
      · split at h
        · simp at h
        · rename_i b hb
          exact step _ _ (IsRune_ascii b (unescape_ascii e b hb)) h
    · exact step _ _ (IsRune_ascii c (by assumption)) h
    · exact step _ _ (IsRune_EncodeRune _) h

/-- Every string literal read by the decoder is valid UTF-8. -/
theorem unquote_valid (s out rest : GoString) (h : unquote s = some (out, rest)) :
    ValidString out = true :=
  unquoteLoop_valid _ s out rest h

/-- Whatever the scanner reads, the strings in it are valid UTF-8. -/
theorem scan_valid : ∀ (fuel : Nat) (goal : Goal) (s : GoString) (v : Value) (rest : GoString),
    scan fuel goal s = some (v, rest) → v.StringsValid := by
  intro fuel
  induction fuel with
  | zero => intro goal s v rest h; simp [scan] at h
  | succ fuel ih =>
    intro goal s v rest h
    rcases s with _ | ⟨c, s⟩
    · simp [scan] at h
    cases goal with
    | value =>
      simp only [scan] at h
      split_ifs at h
      · split at h
        · simp at h
        · split_ifs at h
          · simp only [Option.some.injEq, Prod.mk.injEq] at h
            rw [← h.1]
            intro m hm
            simp at hm
          · exact ih _ _ _ _ h
      · split at h
        · simp at h
        · split_ifs at h
          · simp only [Option.some.injEq, Prod.mk.injEq] at h
            rw [← h.1]
            trivial
          · exact ih _ _ _ _ h
      · simp only [Option.map_eq_some', Prod.mk.injEq] at h
        obtain ⟨⟨o, q⟩, hu, h1, _⟩ := h
        rw [← h1]
        exact unquote_valid s o q hu
      all_goals
        simp only [Option.map_eq_some', Prod.mk.injEq] at h
        obtain ⟨_, _, h1, _⟩ := h
        rw [← h1]
        trivial
    | elements =>
      simp only [scan] at h
      split at h
      · simp at h
      · split at h
        · simp at h
        · split_ifs at h
          · exact ih _ _ _ _ h
          · simp only [Option.some.injEq, Prod.mk.injEq] at h
            rw [← h.1]
            trivial
    | members =>
      simp only [scan] at h
      split_ifs at h
      split at h
      · simp at h
      · split at h
        · simp at h
        · split_ifs at h
          split at h
          · simp at h
          · rename_i key r hk d t hd v1 r2 hv
            split at h
            · simp at h
            · split_ifs at h
              · split at h
                · rename_i ms r3 hms
                  simp only [Option.some.injEq, Prod.mk.injEq] at h
                  rw [← h.1]
                  have hv1 := ih _ _ _ _ hv
                  have hms1 := ih _ _ _ _ hms
                  intro m hm t ht
                  rcases List.mem_cons.mp hm with rfl | hm
                  · simp only at ht
                    subst ht
                    exact hv1
                  · exact hms1 m hm t ht
                · simp at h
              · simp only [Option.some.injEq, Prod.mk.injEq] at h
                rw [← h.1]
                have hv1 := ih _ _ _ _ hv
                intro m hm t ht
                simp only [List.mem_singleton] at hm
                subst hm
                simp only at ht
                subst ht
                exact hv1

/-- Storing a valid string in a field keeps the record valid. -/
theorem setField_valid (car : Car) (i : Nat) (s : GoString) (hc : car.Valid)
    (hs : ValidString s = true) : (car.setField i s).Valid := by
  obtain ⟨h1, h2, h3, h4⟩ := hc
  unfold Car.setField
  split <;> simp only [Car.Valid] <;> simp [*]

/-- Storing a member keeps the record valid. -/
theorem storeMember_valid (st : Car × Option JsonError) (m : GoString × Value)
    (hc : st.1.Valid) (hm : ∀ t, m.2 = Value.string t → ValidString t = true) :
    (storeMember st m).1.Valid := by
  unfold storeMember
  split
  · exact hc
  · split
    · rename_i s hs
      exact setField_valid _ _ _ hc (hm s hs)
    · exact hc
    · exact hc

/-- Storing the members of an object keeps the record valid. -/
theorem foldl_storeMember_valid (ms : List (GoString × Value)) :
    ∀ (st : Car × Option JsonError), st.1.Valid →
      (∀ m ∈ ms, ∀ t, m.2 = Value.string t → ValidString t = true) →
      (ms.foldl storeMember st).1.Valid := by
  induction ms with
  | nil => intro st hc _; exact hc
  | cons m ms ih =>
    intro st hc hm
    simp only [List.foldl_cons]
    apply ih
    · exact storeMember_valid st m hc (hm m (List.mem_cons_self _ _))
    · intro m1 hm1
      exact hm m1 (List.mem_cons_of_mem _ hm1)

/-- Whatever bytes are decoded into a record of valid UTF-8 strings, the record
afterwards consists of valid UTF-8 strings. -/
theorem Unmarshal_valid (data : GoString) (car : Car) (hc : car.Valid) :
    (Unmarshal data car).1.Valid := by
  unfold Unmarshal
  split
  · exact hc
  · rename_i v rest hv
    split_ifs
    · exact hc
    · split
      · rename_i ms
        exact foldl_storeMember_valid ms (car, none) hc (scan_valid _ _ _ _ _ hv)
      · exact hc
      · exact hc

/-- The empty record is valid. -/
theorem Car.Valid_empty : (Car.mk [] [] [] []).Valid := ⟨rfl, rfl, rfl, rfl⟩

/-- Writing the same value at the same key twice is writing it once. -/
theorem Ledger.put_put (world : Ledger) (k v : GoString) :
    (world.put k v).put k v = world.put k v := by
  induction world with
  | nil => simp [Ledger.put]
  | cons e rest ih =>
    obtain ⟨k0, v0⟩ := e
    by_cases h : k0 = k
    · simp [Ledger.put, h]
    · by_cases h2 : strLess k k0 = true
      · simp [Ledger.put, h, h2]
      · simp [Ledger.put, h, h2, ih]

/-- Encoding, decoding and encoding again changes nothing when the strings of the
record are valid UTF-8; the owner may be replaced by any string on the way. -/
theorem Marshal_Unmarshal_Marshal (car : Car) (owner : GoString)
    (h1 : ValidString car.Make = true) (h2 : ValidString car.Model = true)
    (h3 : ValidString car.Colour = true) :
    Marshal (Car.mk
        (Unmarshal (Marshal (Car.mk car.Make car.Model car.Colour owner)) (Car.mk [] [] [] [])).1.Make
        (Unmarshal (Marshal (Car.mk car.Make car.Model car.Colour owner)) (Car.mk [] [] [] [])).1.Model
        (Unmarshal (Marshal (Car.mk car.Make car.Model car.Colour owner)) (Car.mk [] [] [] [])).1.Colour
        owner)
      = Marshal (Car.mk car.Make car.Model car.Colour owner) := by
  simp only [Unmarshal_Marshal, ToValidUTF8_valid _ h1, ToValidUTF8_valid _ h2,
    ToValidUTF8_valid _ h3]

/-! ## Lemmas on decoding what is not an object, on the scan loop and on frames -/

/-- Decoding in terms of the value read. -/
theorem Unmarshal_topValue (data : GoString) (car : Car) :
    Unmarshal data car
      = match topValue data with
        | none => (car, some .SyntaxError)
        | some (.object ms) => ms.foldl storeMember (car, none)
        | some .null => (car, none)
        | some _ => (car, some .UnmarshalTypeError) := by
  unfold Unmarshal topValue
  rcases scan (2 * data.length + 2) .value (skipSpace data) with _ | ⟨v, rest⟩
  · rfl
  · by_cases h : skipSpace rest = []
    · cases v <;> simp [h]
    · simp [h]

/-- Decoding bytes that are not a JSON object leaves the record as it was. -/
theorem Unmarshal_not_object (data : GoString) (car : Car)
    (h : ∀ ms, topValue data ≠ some (.object ms)) : (Unmarshal data car).1 = car := by
  rw [Unmarshal_topValue]
  split
  · rfl
  · rename_i ms hms
    exact absurd hms (h ms)
  · rfl
  · rfl

/-- The effect of `changeCarOwner` on a key whose bytes leave the decoded record empty. -/
theorem changeCarOwner_of_empty_decode (world : Ledger) (k newOwner : GoString)
    (h : (Unmarshal ((world.get k).getD []) (Car.mk [] [] [] [])).1 = Car.mk [] [] [] []) :
    changeCarOwner reliable world [k, newOwner]
      = (shim.Success [], world.put k (Marshal (Car.mk [] [] [] newOwner))) := by
  rw [changeCarOwner_two, GetState_reliable, PutState_reliable, h]

/-- The scan loop stops at the first `Next` that fails, with its error. -/
theorem queryAllCarsLoop_error (client : LedgerClient) (e : GoString) :
    ∀ (rows : Ledger) (n i : Nat) (written : Bool) (buffer : GoString),
      i < rows.length → (∀ m, m < i → client.nextErr (n + m) = none) →
      client.nextErr (n + i) = some e →
      queryAllCarsLoop client rows n written buffer = .error e := by
  intro rows
  induction rows with
  | nil => intro n i written buffer hi; simp at hi
  | cons kv rest ih =>
    intro n i written buffer hi hnone herr
    rcases i with _ | j
    · simp only [Nat.add_zero] at herr
      simp only [queryAllCarsLoop, herr]
    · have h0 : client.nextErr n = none := by simpa using hnone 0 (by omega)
      simp only [queryAllCarsLoop, h0]
      apply ih (n + 1) j
      · simpa using hi
      · intro m hm
        have := hnone (m + 1) (by omega)
        rwa [show n + 1 + m = n + (m + 1) by omega]
      · rwa [show n + 1 + j = n + (j + 1) by omega]

/-- The scan loop without failures appends, for every row in order, a comma (except
in front of the first element of the array) and the element. -/
theorem queryAllCarsLoop_ok (client : LedgerClient) (hn : ∀ n, client.nextErr n = none) :
    ∀ (rows : Ledger) (n : Nat) (written : Bool) (buffer : GoString),
      queryAllCarsLoop client rows n written buffer
        = .ok (match rows with
          | [] => buffer
          | kv :: rest =>
            (if written then buffer ++ str "," else buffer) ++ writeElement kv
              ++ (rest.map (fun r => str "," ++ writeElement r)).flatten) := by
  intro rows
  induction rows with
  | nil => intro n written buffer; rfl
  | cons kv rest ih =>
    intro n written buffer
    simp only [queryAllCarsLoop, hn]
    rw [ih]
    rcases rest with _ | ⟨kv2, rest2⟩
    · simp
    · simp [List.append_assoc]

/-- Joining with a separator: the first element, then separator and element for each other one. -/
theorem intercalate_cons (sep a : GoString) (l : List GoString) :
    List.intercalate sep (a :: l) = a ++ (l.map (fun r => sep ++ r)).flatten := by
  induction l generalizing a with
  | nil => simp [List.intercalate]
  | cons b l ih =>
    have := ih b
    simp only [List.intercalate, List.intersperse, List.flatten_cons, List.map_cons] at this ⊢
    rw [this]
    simp [List.append_assoc]

/-- No `Next` fails with the client that does not fail. -/
theorem reliable_nextErr (n : Nat) : reliable.nextErr n = none := rfl

/-- The buffer of `queryAllCars` after the loop, for any rows scanned without failure. -/
theorem queryAllCarsLoop_intercalate (rows : Ledger) :
    queryAllCarsLoop reliable rows 0 false (str "[")
      = .ok (str "[" ++ List.intercalate (str ",") (rows.map writeElement)) := by
  rw [queryAllCarsLoop_ok reliable reliable_nextErr]
  rcases rows with _ | ⟨kv, rest⟩
  · simp [List.intercalate]
  · simp only [List.map_cons, intercalate_cons, List.map_map, Bool.false_eq_true, if_false]
    simp [List.append_assoc, Function.comp_def]

/-- Method `queryAllCars` with a ledger client that does not fail: the array of the rows in the window. -/
theorem queryAllCars_reliable (world : Ledger) :
    queryAllCars reliable world
      = (shim.Success (str "[" ++ List.intercalate (str ",")
          ((Ledger.range world (str "CAR0") (str "CAR999")).map writeElement) ++ str "]"),
          world) := by
  unfold queryAllCars
  rw [show GetStateByRange reliable world (str "CAR0") (str "CAR999")
      = .ok (Ledger.range world (str "CAR0") (str "CAR999")) from rfl]
  simp only [queryAllCarsLoop_intercalate]

/-- The text of one array element. -/
theorem writeElement_text (kv : GoString × GoString) :
    writeElement kv
      = str "\x7b\"Key\":\"" ++ kv.1 ++ str "\", \"Record\":" ++ kv.2 ++ str "\x7d" := by
  have h1 : str "\x7b\"Key\":\"" = str "\x7b\"Key\":" ++ str "\"" := by decide
  have h2 : str "\", \"Record\":" = str "\"" ++ str ", \"Record\":" := by decide
  rw [writeElement, h1, h2]
  simp only [List.append_assoc]

/-- A key is present exactly when the ledger has an entry with it. -/
theorem Ledger.get_isSome_iff (world : Ledger) (k : GoString) :
    (world.get k).isSome = true ↔ ∃ v, (k, v) ∈ world := by
  induction world with
  | nil => simp [Ledger.get]
  | cons e rest ih =>
    obtain ⟨k0, v0⟩ := e
    by_cases h : k0 = k
    · subst h
      simp [Ledger.get]
    · have h' : ¬ k = k0 := fun h1 => h h1.symm
      simp [Ledger.get, h, h', ih]

/-- The keys of a range scan: the keys present that lie in the half-open range. -/
theorem Ledger.mem_range_iff (world : Ledger) (startKey endKey k : GoString) :
    (∃ v, (k, v) ∈ Ledger.range world startKey endKey)
      ↔ ((world.get k).isSome = true ∧ strLess k startKey = false
          ∧ (endKey.isEmpty = true ∨ strLess k endKey = true)) := by
  rw [Ledger.get_isSome_iff]
  simp only [Ledger.range, List.mem_filter, Bool.and_eq_true, Bool.not_eq_true', Bool.or_eq_true]
  constructor
  · rintro ⟨v, hv, h1, h2⟩
    exact ⟨⟨v, hv⟩, h1, h2⟩
  · rintro ⟨⟨v, hv⟩, h1, h2⟩
    exact ⟨v, hv, h1, h2⟩

/-- Method `queryCar` returns the ledger it was given. -/
theorem queryCar_world (client : LedgerClient) (world : Ledger) (args : List GoString) :
    (queryCar client world args).2 = world := by
  unfold queryCar
  split_ifs <;> rfl

/-- Method `queryAllCars` returns the ledger it was given. -/
theorem queryAllCars_world (client : LedgerClient) (world : Ledger) :
    (queryAllCars client world).2 = world := by
  unfold queryAllCars
  split
  · rfl
  · split <;> rfl

/-- The rows that `queryAllCars` scans and writes: for every ledger and key `k` a row
with key `k` is among them exactly when `k` is present in the ledger and
`CAR0 <= k < CAR999` in byte order; the row of a record created at `CAR1000` is
among them, that of one created at `CAR999` or at `ZETA` is not. -/
theorem scanned_rows_iff_in_window (world : Ledger) (k make model colour owner : GoString) :
    (queryAllCars reliable world).1
        = shim.Success (str "[" ++ List.intercalate (str ",")
            ((Ledger.range world (str "CAR0") (str "CAR999")).map (fun kv =>
              str "\x7b\"Key\":\"" ++ kv.1 ++ str "\", \"Record\":" ++ kv.2 ++ str "\x7d"))
            ++ str "]")
    ∧ ((∃ v, (k, v) ∈ Ledger.range world (str "CAR0") (str "CAR999"))
        ↔ ((world.get k).isSome = true ∧ strLess k (str "CAR0") = false
            ∧ strLess k (str "CAR999") = true))
    ∧ (∃ v, (str "CAR1000", v) ∈ Ledger.range
          (createCar reliable world [str "CAR1000", make, model, colour, owner]).2
          (str "CAR0") (str "CAR999"))
    ∧ (¬ ∃ v, (str "CAR999", v) ∈ Ledger.range
          (createCar reliable world [str "CAR999", make, model, colour, owner]).2
          (str "CAR0") (str "CAR999"))
    ∧ (¬ ∃ v, (str "ZETA", v) ∈ Ledger.range
          (createCar reliable world [str "ZETA", make, model, colour, owner]).2
          (str "CAR0") (str "CAR999")) := by
  have hf : (fun kv : GoString × GoString =>
      str "\x7b\"Key\":\"" ++ kv.1 ++ str "\", \"Record\":" ++ kv.2 ++ str "\x7d")
      = writeElement := by
    funext kv
    exact (writeElement_text kv).symm
  have he : (str "CAR999").isEmpty = false := by decide
  have hiff : ∀ (w : Ledger) (key : GoString),
      (∃ v, (key, v) ∈ Ledger.range w (str "CAR0") (str "CAR999"))
        ↔ ((w.get key).isSome = true ∧ strLess key (str "CAR0") = false
            ∧ strLess key (str "CAR999") = true) := by
    intro w key
    rw [Ledger.mem_range_iff, he]
    simp
  refine ⟨?_, hiff world k, ?_, ?_, ?_⟩
  · rw [hf, queryAllCars_reliable]
  · rw [hiff, createCar_five, PutState_reliable, Ledger.get_put_same]
    exact ⟨rfl, by decide, by decide⟩
  · rw [hiff]
    have : strLess (str "CAR999") (str "CAR999") = false := by decide
    simp [this]
  · rw [hiff]
    have : strLess (str "ZETA") (str "CAR999") = false := by decide
    simp [this]

/-! ## The claims -/

/-- C1: for every function name other than the five operation names (compared byte
for byte), every argument list, every ledger and every ledger client, `Invoke`
returns the failure with message `Invalid Smart Contract function name.` -/
theorem Invoke_unknown_function (client : LedgerClient) (world : Ledger) (function : GoString)
    (args : List GoString)
    (h1 : function ≠ str "queryCar") (h2 : function ≠ str "initLedger")
    (h3 : function ≠ str "createCar") (h4 : function ≠ str "queryAllCars")
    (h5 : function ≠ str "changeCarOwner") :
    (Invoke client world function args).1
      = shim.Error (str "Invalid Smart Contract function name.") := by
  simp [Invoke, h1, h2, h3, h4, h5]

/-- C1 at `deleteCar` with no arguments and at `QueryCar`, which differs from an
operation name in letter case only. -/
theorem Invoke_unknown_function_witness :
    (str "deleteCar" ≠ str "queryCar" ∧ str "deleteCar" ≠ str "initLedger"
      ∧ str "deleteCar" ≠ str "createCar" ∧ str "deleteCar" ≠ str "queryAllCars"
      ∧ str "deleteCar" ≠ str "changeCarOwner")
    ∧ (Invoke reliable [] (str "deleteCar") []).1
        = shim.Error (str "Invalid Smart Contract function name.")
    ∧ (Invoke reliable [] (str "QueryCar") [str "CAR0"]).1
        = shim.Error (str "Invalid Smart Contract function name.") :=
  ⟨⟨by decide, by decide, by decide, by decide, by decide⟩,
    Invoke_unknown_function reliable [] (str "deleteCar") [] (by decide) (by decide) (by decide)
      (by decide) (by decide),
    Invoke_unknown_function reliable [] (str "QueryCar") [str "CAR0"] (by decide) (by decide)
      (by decide) (by decide) (by decide)⟩

/-- C2: for every ledger client, ledger and argument list, `queryCar`, `createCar` and
`changeCarOwner` return the failure with message `Incorrect number of arguments.
Expecting N` (N = 1, 5, 2) exactly when the number of arguments is not N. -/
theorem arity_error_iff (client : LedgerClient) (world : Ledger) (args : List GoString) :
    ((queryCar client world args).1
        = shim.Error (str "Incorrect number of arguments. Expecting 1") ↔ args.length ≠ 1)
    ∧ ((createCar client world args).1
        = shim.Error (str "Incorrect number of arguments. Expecting 5") ↔ args.length ≠ 5)
    ∧ ((changeCarOwner client world args).1
        = shim.Error (str "Incorrect number of arguments. Expecting 2") ↔ args.length ≠ 2) := by
  refine ⟨?_, ?_, ?_⟩
  · by_cases h : args.length = 1 <;> simp [queryCar, h, (shim_Error_ne_Success _ _).symm]
  · by_cases h : args.length = 5 <;> simp [createCar, h, (shim_Error_ne_Success _ _).symm]
  · by_cases h : args.length = 2 <;> simp [changeCarOwner, h, (shim_Error_ne_Success _ _).symm]

set_option maxRecDepth 100000 in
/-- C3 fails: invoked with the one argument `x` on the empty ledger, `initLedger` and
`queryAllCars` succeed; neither returns the failure `Incorrect number of
arguments. Expecting 0`. -/
theorem zero_arity_extra_argument_accepted :
    (Invoke reliable [] (str "initLedger") [str "x"]).1 = shim.Success []
      ∧ (Invoke reliable [] (str "initLedger") [str "x"]).1
          ≠ shim.Error (str "Incorrect number of arguments. Expecting 0")
      ∧ (Invoke reliable [] (str "queryAllCars") [str "x"]).1 = shim.Success (str "[]")
      ∧ (Invoke reliable [] (str "queryAllCars") [str "x"]).1
          ≠ shim.Error (str "Incorrect number of arguments. Expecting 0") := by
  refine ⟨?_, ?_, ?_, ?_⟩
  · rfl
  · decide
  · rfl
  · decide

/-- C3 as amended: `Invoke` passes no arguments to `initLedger` and `queryAllCars`, so
for every argument list they behave as with the empty one; `initLedger` returns
success with an empty payload, and with a ledger client that does not fail
`queryAllCars` returns a success. -/
theorem zero_arity_arguments_ignored (client : LedgerClient) (world : Ledger)
    (args : List GoString) :
    Invoke client world (str "initLedger") args = Invoke client world (str "initLedger") []
      ∧ (Invoke client world (str "initLedger") args).1 = shim.Success []
      ∧ Invoke client world (str "queryAllCars") args
          = Invoke client world (str "queryAllCars") []
      ∧ (Invoke reliable world (str "queryAllCars") args).1.Status = 200 := by
  have h1 : str "initLedger" ≠ str "queryCar" := by decide
  have h2 : str "queryAllCars" ≠ str "queryCar" := by decide
  have h3 : str "queryAllCars" ≠ str "initLedger" := by decide
  have h4 : str "queryAllCars" ≠ str "createCar" := by decide
  refine ⟨?_, ?_, ?_, ?_⟩
  · simp [Invoke, h1]
  · simp [Invoke, h1, initLedger]
  · simp [Invoke, h2, h3, h4]
  · simp only [Invoke, h2, h3, h4, if_false, if_true, queryAllCars, GetStateByRange, reliable]
    obtain ⟨out, hout⟩ := queryAllCarsLoop_reliable
      (Ledger.range world (str "CAR0") (str "CAR999")) 0 false (str "[")
    simp only [reliable] at hout
    rw [hout]
    rfl

set_option maxRecDepth 100000 in
/-- C4 fails at a field that is not valid UTF-8: after `createCar` with make `0xFF`,
`queryCar` returns an object whose make is the escape of U+FFFD, and decoding
that payload does not give back the record that was created. -/
theorem createCar_invalid_utf8_not_recovered :
    (queryCar reliable
        (createCar reliable []
          [str "CARX", [0xFF], str "Civic", str "silver", str "Alex"]).2 [str "CARX"]).1
      = shim.Success (str "\x7b\"make\":\"\\ufffd\",\"model\":\"Civic\",\"colour\":\"silver\",\"owner\":\"Alex\"\x7d")
    ∧ (Unmarshal
        (queryCar reliable
          (createCar reliable []
            [str "CARX", [0xFF], str "Civic", str "silver", str "Alex"]).2
          [str "CARX"]).1.Payload (Car.mk [] [] [] [])).1
      ≠ Car.mk [0xFF] (str "Civic") (str "silver") (str "Alex") := by
  refine ⟨by rfl, by decide⟩

/-- C4 as amended: for every ledger, key and four strings, `createCar` succeeds and a
following `queryCar` at the key succeeds with exactly the encoding of the record,
a JSON object with the members make, model, colour, owner in that order; when
the four strings are valid UTF-8 that payload decodes to exactly that record. -/
theorem createCar_then_queryCar (world : Ledger) (k make model colour owner : GoString) :
    (createCar reliable world [k, make, model, colour, owner]).1 = shim.Success []
    ∧ (queryCar reliable (createCar reliable world [k, make, model, colour, owner]).2 [k]).1
        = shim.Success (Marshal (Car.mk make model colour owner))
    ∧ Marshal (Car.mk make model colour owner)
        = str "\x7b\"make\":" ++ encodeString make ++ str ",\"model\":" ++ encodeString model
            ++ str ",\"colour\":" ++ encodeString colour ++ str ",\"owner\":"
            ++ encodeString owner ++ str "\x7d"
    ∧ (ValidString make = true → ValidString model = true → ValidString colour = true →
        ValidString owner = true →
        Unmarshal (Marshal (Car.mk make model colour owner)) (Car.mk [] [] [] [])
          = (Car.mk make model colour owner, none)) := by
  refine ⟨?_, ?_, ?_, ?_⟩
  · rw [createCar_five]
  · rw [createCar_five, PutState_reliable, queryCar_single, Ledger.get_put_same]
    rfl
  · have e1 : encodeString (str "make") = str "\"make\"" := by decide
    have e2 : encodeString (str "model") = str "\"model\"" := by decide
    have e3 : encodeString (str "colour") = str "\"colour\"" := by decide
    have e4 : encodeString (str "owner") = str "\"owner\"" := by decide
    have c1 : str "\x7b\"make\":" = 0x7B :: (str "\"make\"" ++ [0x3A]) := by decide
    have c2 : str ",\"model\":" = 0x2C :: (str "\"model\"" ++ [0x3A]) := by decide
    have c3 : str ",\"colour\":" = 0x2C :: (str "\"colour\"" ++ [0x3A]) := by decide
    have c4 : str ",\"owner\":" = 0x2C :: (str "\"owner\"" ++ [0x3A]) := by decide
    have c5 : str "\x7d" = [0x7D] := by decide
    rw [Marshal, e1, e2, e3, e4, c1, c2, c3, c4, c5]
    simp only [List.cons_append, List.append_assoc, List.nil_append, List.singleton_append]
  · intro h1 h2 h3 h4
    exact Unmarshal_Marshal_valid _ _ h1 h2 h3 h4

set_option maxRecDepth 100000 in
/-- C4 as amended, at `createCar("CARX","Honda","Civic","silver","Alex")` on the empty
ledger. -/
theorem createCar_then_queryCar_witness :
    (ValidString (str "Honda") = true ∧ ValidString (str "Civic") = true
      ∧ ValidString (str "silver") = true ∧ ValidString (str "Alex") = true)
    ∧ (queryCar reliable
        (createCar reliable []
          [str "CARX", str "Honda", str "Civic", str "silver", str "Alex"]).2 [str "CARX"]).1
      = shim.Success (Marshal (Car.mk (str "Honda") (str "Civic") (str "silver") (str "Alex")))
    ∧ Unmarshal (Marshal (Car.mk (str "Honda") (str "Civic") (str "silver") (str "Alex")))
        (Car.mk [] [] [] [])
      = (Car.mk (str "Honda") (str "Civic") (str "silver") (str "Alex"), none) :=
  ⟨⟨by decide, by decide, by decide, by decide⟩,
    (createCar_then_queryCar [] (str "CARX") (str "Honda") (str "Civic") (str "silver")
      (str "Alex")).2.1,
    (createCar_then_queryCar [] (str "CARX") (str "Honda") (str "Civic") (str "silver")
      (str "Alex")).2.2.2 (by decide) (by decide) (by decide) (by decide)⟩

set_option maxRecDepth 100000 in
/-- C5 fails at a record that is not valid UTF-8: when `CAR0` holds the encoding of the
record with make `0xFF`, `changeCarOwner` stores the encoding of the record whose
make is U+FFFD, which is not the encoding of the record with make `0xFF` and the
new owner. -/
theorem changeCarOwner_invalid_utf8_reencoded :
    Ledger.get [(str "CAR0", Marshal (Car.mk [0xFF] (str "Prius") (str "blue") (str "Tomoko")))]
        (str "CAR0")
      = some (Marshal (Car.mk [0xFF] (str "Prius") (str "blue") (str "Tomoko")))
    ∧ (queryCar reliable
        (changeCarOwner reliable
          [(str "CAR0", Marshal (Car.mk [0xFF] (str "Prius") (str "blue") (str "Tomoko")))]
          [str "CAR0", str "Dana"]).2 [str "CAR0"]).1
      ≠ shim.Success (Marshal (Car.mk [0xFF] (str "Prius") (str "blue") (str "Dana")))
    ∧ (queryCar reliable
        (changeCarOwner reliable
          [(str "CAR0", Marshal (Car.mk [0xFF] (str "Prius") (str "blue") (str "Tomoko")))]
          [str "CAR0", str "Dana"]).2 [str "CAR0"]).1
      = shim.Success
          (Marshal (Car.mk [0xEF, 0xBF, 0xBD] (str "Prius") (str "blue") (str "Dana"))) := by
  refine ⟨by rfl, by decide, by rfl⟩

/-- C5 as amended: for every ledger in which key `k` holds the encoding of a record `r`
whose make, model and colour are valid UTF-8, and for every string `newOwner`,
`changeCarOwner` succeeds and `queryCar` at `k` then returns the encoding of the
record with the make, model and colour of `r` and owner `newOwner`. -/
theorem changeCarOwner_then_queryCar (world : Ledger) (k newOwner : GoString) (r : Car)
    (hk : world.get k = some (Marshal r)) (h1 : ValidString r.Make = true)
    (h2 : ValidString r.Model = true) (h3 : ValidString r.Colour = true) :
    (changeCarOwner reliable world [k, newOwner]).1 = shim.Success []
    ∧ (queryCar reliable (changeCarOwner reliable world [k, newOwner]).2 [k]).1
        = shim.Success (Marshal (Car.mk r.Make r.Model r.Colour newOwner)) := by
  refine ⟨?_, ?_⟩
  · rw [changeCarOwner_two]
  · rw [changeCarOwner_two, GetState_reliable, hk, PutState_reliable, queryCar_single,
      Ledger.get_put_same]
    simp only [Option.getD_some, Unmarshal_Marshal, ToValidUTF8_valid _ h1,
      ToValidUTF8_valid _ h2, ToValidUTF8_valid _ h3]

set_option maxRecDepth 100000 in
/-- C5 as amended, at the seeded ledger: `CAR0` is Toyota, Prius, blue, Tomoko, and
`changeCarOwner("CAR0","Dana")` makes Dana the owner. -/
theorem changeCarOwner_then_queryCar_witness :
    (Ledger.get (initLedger reliable []).2 (str "CAR0")
        = some (Marshal (Car.mk (str "Toyota") (str "Prius") (str "blue") (str "Tomoko")))
      ∧ ValidString (str "Toyota") = true ∧ ValidString (str "Prius") = true
      ∧ ValidString (str "blue") = true)
    ∧ (queryCar reliable
        (changeCarOwner reliable (initLedger reliable []).2 [str "CAR0", str "Dana"]).2
        [str "CAR0"]).1
      = shim.Success (str "\x7b\"make\":\"Toyota\",\"model\":\"Prius\",\"colour\":\"blue\",\"owner\":\"Dana\"\x7d") :=
  ⟨⟨by rfl, by decide, by decide, by decide⟩,
    (changeCarOwner_then_queryCar (initLedger reliable []).2 (str "CAR0") (str "Dana")
      (Car.mk (str "Toyota") (str "Prius") (str "blue") (str "Tomoko")) (by rfl) (by decide)
      (by decide) (by decide)).2.trans (by rfl)⟩

set_option maxRecDepth 100000 in
/-- C6: for every initial ledger, `initLedger` succeeds; the calls of `PutState` it
issues are exactly ten, at the keys `CAR0` to `CAR9` in ascending index order,
call `i` with the encoding of seed record `i`, for every ledger client; with a
client that does not fail the ledger afterwards is what these ten puts make of
the initial one, and whatever was stored before, `queryCar` at `CAR` followed by
the decimal digits of `i` returns the encoding of seed record `i`, for `CAR0` the
Toyota of Tomoko and for `CAR9` the Holden of Shotaro. -/
theorem initLedger_seeds (world : Ledger) :
    (initLedger reliable world).1 = shim.Success []
      ∧ (initLedger reliable world).2
          = (List.range 10).foldl
              (fun w i =>
                Ledger.put w (str "CAR" ++ Itoa i) (Marshal (cars.getD i (Car.mk [] [] [] []))))
              world
      ∧ (∀ i : Fin 10,
          (queryCar reliable (initLedger reliable world).2 [str "CAR" ++ Itoa i.val]).1
            = shim.Success (Marshal (cars.getD i.val (Car.mk [] [] [] []))))
      ∧ (queryCar reliable (initLedger reliable world).2 [str "CAR0"]).1
          = shim.Success (str "\x7b\"make\":\"Toyota\",\"model\":\"Prius\",\"colour\":\"blue\",\"owner\":\"Tomoko\"\x7d")
      ∧ (queryCar reliable (initLedger reliable world).2 [str "CAR9"]).1
          = shim.Success (str "\x7b\"make\":\"Holden\",\"model\":\"Barina\",\"colour\":\"brown\",\"owner\":\"Shotaro\"\x7d")
      ∧ (∀ client : LedgerClient,
          initLedgerPuts client world
            = (List.range 10).map
                (fun i => (str "CAR" ++ Itoa i, Marshal (cars.getD i (Car.mk [] [] [] [])))))
      ∧ (∀ client : LedgerClient,
          (initLedgerPuts client world).map Prod.fst
            = [str "CAR0", str "CAR1", str "CAR2", str "CAR3", str "CAR4", str "CAR5",
                str "CAR6", str "CAR7", str "CAR8", str "CAR9"])
      ∧ (∀ client : LedgerClient,
          (initLedgerPuts client world).head?
              = some (str "CAR0", str "\x7b\"make\":\"Toyota\",\"model\":\"Prius\",\"colour\":\"blue\",\"owner\":\"Tomoko\"\x7d")
            ∧ (initLedgerPuts client world).getLast?
              = some (str "CAR9", str "\x7b\"make\":\"Holden\",\"model\":\"Barina\",\"colour\":\"brown\",\"owner\":\"Shotaro\"\x7d")) := by
  have hw := initLedger_world world
  have key : ∀ i : Fin 10, Ledger.get (initLedger reliable world).2 (str "CAR" ++ Itoa i.val)
      = some (Marshal (cars.getD i.val (Car.mk [] [] [] []))) := by
    intro i
    rw [hw, ← List.foldl_map (fun i => (str "CAR" ++ Itoa i, Marshal (cars.getD i (Car.mk [] [] [] []))))
      (fun w kv => Ledger.put w kv.1 kv.2), Ledger.get_foldl_put]
    fin_cases i <;> rfl
  have hputs : ∀ client : LedgerClient,
      initLedgerPuts client world
        = (List.range 10).map
            (fun i => (str "CAR" ++ Itoa i, Marshal (cars.getD i (Car.mk [] [] [] [])))) := by
    intro client
    rfl
  refine ⟨rfl, hw, ?_, ?_, ?_, hputs, ?_, ?_⟩
  · intro i
    rw [queryCar_single, key i]
    rfl
  · rw [queryCar_single, show Ledger.get (initLedger reliable world).2 (str "CAR0") = _ from key 0]
    rfl
  · rw [queryCar_single, show Ledger.get (initLedger reliable world).2 (str "CAR9") = _ from key 9]
    rfl
  · intro client
    rw [hputs client]
    rfl
  · intro client
    rw [hputs client]
    exact ⟨by rfl, by rfl⟩

set_option maxRecDepth 1000000 in
/-- C7: from the empty ledger, after `initLedger` and a `createCar` at key `ZETA`,
`queryAllCars` succeeds; the scan yields exactly the ten keys `CAR0` to `CAR9` in
that order, the payload is the JSON array of the ten elements with those keys and
the encodings of the seed records, and `ZETA`, though stored, is not in it. -/
theorem queryAllCars_after_seed_and_ZETA (make model colour owner : GoString) :
    (queryAllCars reliable
        (createCar reliable (initLedger reliable []).2
          [str "ZETA", make, model, colour, owner]).2).1
      = shim.Success (str "[" ++
          (List.intercalate (str ",")
            ((List.range 10).map (fun i =>
              str "\x7b\"Key\":\"" ++ (str "CAR" ++ Itoa i) ++ str "\", \"Record\":"
                ++ Marshal (cars.getD i (Car.mk [] [] [] [])) ++ str "\x7d")))
          ++ str "]")
    ∧ (Ledger.range
        (createCar reliable (initLedger reliable []).2
          [str "ZETA", make, model, colour, owner]).2 (str "CAR0") (str "CAR999")).map Prod.fst
      = (List.range 10).map (fun i => str "CAR" ++ Itoa i)
    ∧ Ledger.get
        (createCar reliable (initLedger reliable []).2
          [str "ZETA", make, model, colour, owner]).2 (str "ZETA")
      = some (Marshal (Car.mk make model colour owner))
    ∧ (queryAllCars reliable
        (createCar reliable (initLedger reliable []).2
          [str "ZETA", make, model, colour, owner]).2).1.Payload
      = str "[\x7b\"Key\":\"CAR0\", \"Record\":\x7b\"make\":\"Toyota\",\"model\":\"Prius\",\"colour\":\"blue\",\"owner\":\"Tomoko\"\x7d\x7d"
          ++ str ",\x7b\"Key\":\"CAR1\", \"Record\":\x7b\"make\":\"Ford\",\"model\":\"Mustang\",\"colour\":\"red\",\"owner\":\"Brad\"\x7d\x7d"
          ++ str ",\x7b\"Key\":\"CAR2\", \"Record\":\x7b\"make\":\"Hyundai\",\"model\":\"Tucson\",\"colour\":\"green\",\"owner\":\"Jin Soo\"\x7d\x7d"
          ++ str ",\x7b\"Key\":\"CAR3\", \"Record\":\x7b\"make\":\"Volkswagen\",\"model\":\"Passat\",\"colour\":\"yellow\",\"owner\":\"Max\"\x7d\x7d"
          ++ str ",\x7b\"Key\":\"CAR4\", \"Record\":\x7b\"make\":\"Tesla\",\"model\":\"S\",\"colour\":\"black\",\"owner\":\"Adriana\"\x7d\x7d"
          ++ str ",\x7b\"Key\":\"CAR5\", \"Record\":\x7b\"make\":\"Peugeot\",\"model\":\"205\",\"colour\":\"purple\",\"owner\":\"Michel\"\x7d\x7d"
          ++ str ",\x7b\"Key\":\"CAR6\", \"Record\":\x7b\"make\":\"Chery\",\"model\":\"S22L\",\"colour\":\"white\",\"owner\":\"Aarav\"\x7d\x7d"
          ++ str ",\x7b\"Key\":\"CAR7\", \"Record\":\x7b\"make\":\"Fiat\",\"model\":\"Punto\",\"colour\":\"violet\",\"owner\":\"Pari\"\x7d\x7d"
          ++ str ",\x7b\"Key\":\"CAR8\", \"Record\":\x7b\"make\":\"Tata\",\"model\":\"Nano\",\"colour\":\"indigo\",\"owner\":\"Valeria\"\x7d\x7d"
          ++ str ",\x7b\"Key\":\"CAR9\", \"Record\":\x7b\"make\":\"Holden\",\"model\":\"Barina\",\"colour\":\"brown\",\"owner\":\"Shotaro\"\x7d\x7d]" := by
  refine ⟨rfl, rfl, rfl, rfl⟩

/-- C8: for every ledger and key, `queryCar` succeeds with exactly the bytes stored at
the key, whatever they are, and with an empty payload when the key is absent;
the ledger is left as it was. On the empty ledger `queryCar("NOPE")` succeeds
with an empty payload. -/
theorem queryCar_returns_stored_bytes (world : Ledger) (k : GoString) :
    (queryCar reliable world [k]).1 = shim.Success ((world.get k).getD [])
      ∧ (queryCar reliable world [k]).2 = world
      ∧ (queryCar reliable [] [str "NOPE"]).1 = shim.Success [] := by
  refine ⟨?_, ?_, ?_⟩
  · rw [queryCar_single]
  · rw [queryCar_single]
  · rfl

set_option maxRecDepth 100000 in
/-- C9 fails at a string that is not valid UTF-8: the record with make `0xFF` is
encoded with the escape of U+FFFD and decoded to the record with make U+FFFD. -/
theorem Unmarshal_Marshal_invalid_utf8 :
    (Unmarshal (Marshal (Car.mk [0xFF] [] [] [])) (Car.mk [] [] [] [])).1
        ≠ Car.mk [0xFF] [] [] []
    ∧ Unmarshal (Marshal (Car.mk [0xFF] [] [] [])) (Car.mk [] [] [] [])
        = (Car.mk [0xEF, 0xBF, 0xBD] [] [] [], none) := by
  refine ⟨by decide, by rfl⟩

/-- C9 as amended: for every record whose four strings are valid UTF-8, decoding its
encoding into an empty `Car` succeeds and gives exactly the record. -/
theorem Unmarshal_Marshal_roundtrip (r : Car) (h1 : ValidString r.Make = true)
    (h2 : ValidString r.Model = true) (h3 : ValidString r.Colour = true)
    (h4 : ValidString r.Owner = true) :
    Unmarshal (Marshal r) (Car.mk [] [] [] []) = (r, none) :=
  Unmarshal_Marshal_valid r _ h1 h2 h3 h4

set_option maxRecDepth 100000 in
/-- C9 as amended, at a record with quotes, HTML characters, a line feed, a backslash
and non-ASCII text. -/
theorem Unmarshal_Marshal_roundtrip_witness :
    (ValidString (str "Tesla \"S\" <b>") = true ∧ ValidString (str "S\n22\\L") = true
      ∧ ValidString (str "café ✓") = true ∧ ValidString [] = true)
    ∧ Unmarshal (Marshal (Car.mk (str "Tesla \"S\" <b>") (str "S\n22\\L") (str "café ✓") []))
        (Car.mk [] [] [] [])
      = (Car.mk (str "Tesla \"S\" <b>") (str "S\n22\\L") (str "café ✓") [], none) :=
  ⟨⟨by decide, by decide, by decide, by decide⟩,
    Unmarshal_Marshal_roundtrip
      (Car.mk (str "Tesla \"S\" <b>") (str "S\n22\\L") (str "café ✓") [])
      (by decide) (by decide) (by decide) (by decide)⟩

set_option maxRecDepth 100000 in
/-- C10, the code at a ledger client whose `GetState` and `PutState` always fail:
`createCar`, `initLedger`, `changeCarOwner` and `queryCar` all return a success,
nothing having been written or read. -/
theorem ledger_failure_swallowed :
    createCar failing [] [str "CARX", str "Honda", str "Civic", str "silver", str "Alex"]
        = (shim.Success [], [])
      ∧ initLedger failing [] = (shim.Success [], [])
      ∧ changeCarOwner failing [(str "CAR0", str "x")] [str "CAR0", str "Dana"]
        = (shim.Success [], [(str "CAR0", str "x")])
      ∧ queryCar failing [(str "CAR0", str "x")] [str "CAR0"]
        = (shim.Success [], [(str "CAR0", str "x")])
      ∧ PutState failing [] (str "CARX")
          (Marshal (Car.mk (str "Honda") (str "Civic") (str "silver") (str "Alex")))
        = ([], some (str "ledger unavailable"))
      ∧ GetState failing [(str "CAR0", str "x")] (str "CAR0")
        = ([], some (str "ledger unavailable")) := by
  refine ⟨?_, ?_, ?_, ?_, ?_, ?_⟩ <;> rfl

set_option maxRecDepth 100000 in
/-- C11 fails: when `CAR0` holds the bytes `garbage`, which are not valid JSON, or the
bytes of the array `[1, 2]`, which are valid JSON but no object,
`changeCarOwner("CAR0","Dana")` returns a success and replaces the value at
`CAR0` by the encoding of the record with empty make, model and colour and owner
Dana. -/
theorem changeCarOwner_overwrites_garbage :
    Valid (str "garbage") = false
    ∧ changeCarOwner reliable [(str "CAR0", str "garbage")] [str "CAR0", str "Dana"]
        = (shim.Success [], [(str "CAR0", str "\x7b\"make\":\"\",\"model\":\"\",\"colour\":\"\",\"owner\":\"Dana\"\x7d")])
    ∧ (changeCarOwner reliable [(str "CAR0", str "garbage")] [str "CAR0", str "Dana"]).1.Status
        ≠ 500
    ∧ Ledger.get
        (changeCarOwner reliable [(str "CAR0", str "garbage")] [str "CAR0", str "Dana"]).2
        (str "CAR0") ≠ some (str "garbage")
    ∧ Valid (str "[1, 2]") = true
    ∧ changeCarOwner reliable [(str "CAR0", str "[1, 2]")] [str "CAR0", str "Dana"]
        = (shim.Success [], [(str "CAR0", str "\x7b\"make\":\"\",\"model\":\"\",\"colour\":\"\",\"owner\":\"Dana\"\x7d")]) := by
  refine ⟨by rfl, by rfl, by decide, by decide, by rfl, by rfl⟩

/-- C11 as amended: for every ledger in which key `k` holds bytes that are not a JSON
object (not valid JSON, or valid JSON of another kind), `changeCarOwner` succeeds
and the ledger then holds at `k` the encoding of the record with empty make,
model and colour and owner `newOwner`. -/
theorem changeCarOwner_not_object (world : Ledger) (k newOwner data : GoString)
    (hk : world.get k = some data) (hd : ∀ ms, topValue data ≠ some (.object ms)) :
    (changeCarOwner reliable world [k, newOwner]).1 = shim.Success []
    ∧ Ledger.get (changeCarOwner reliable world [k, newOwner]).2 k
        = some (Marshal (Car.mk [] [] [] newOwner)) := by
  have h : (Unmarshal ((world.get k).getD []) (Car.mk [] [] [] [])).1 = Car.mk [] [] [] [] := by
    rw [hk]
    exact Unmarshal_not_object data _ hd
  rw [changeCarOwner_of_empty_decode world k newOwner h]
  exact ⟨rfl, Ledger.get_put_same _ _ _⟩

set_option maxRecDepth 100000 in
/-- C11 as amended, at `CAR0` holding the bytes `garbage`. -/
theorem changeCarOwner_not_object_witness :
    (Ledger.get [(str "CAR0", str "garbage")] (str "CAR0") = some (str "garbage")
      ∧ ∀ ms, topValue (str "garbage") ≠ some (.object ms))
    ∧ Ledger.get (changeCarOwner reliable [(str "CAR0", str "garbage")]
          [str "CAR0", str "Dana"]).2 (str "CAR0")
        = some (Marshal (Car.mk [] [] [] (str "Dana"))) :=
  have h1 : topValue (str "garbage") = none := by rfl
  ⟨⟨by rfl, fun ms => by rw [h1]; simp⟩,
    (changeCarOwner_not_object [(str "CAR0", str "garbage")] (str "CAR0") (str "Dana")
      (str "garbage") (by rfl) (fun ms => by rw [h1]; simp)).2⟩

/-- C12: if `GetStateByRange` fails, or call number `i` of `Next` fails after the
calls before it have succeeded (`i` below the number of entries in the window),
`queryAllCars` returns the failure whose message is that error, with an empty
payload, and leaves the ledger as it was. -/
theorem queryAllCars_scan_failure (client : LedgerClient) (world : Ledger) (e : GoString)
    (h : client.rangeErr (str "CAR0") (str "CAR999") = some e
      ∨ (client.rangeErr (str "CAR0") (str "CAR999") = none
        ∧ ∃ i, i < (Ledger.range world (str "CAR0") (str "CAR999")).length
          ∧ (∀ m, m < i → client.nextErr m = none) ∧ client.nextErr i = some e)) :
    queryAllCars client world = (shim.Error e, world)
    ∧ (queryAllCars client world).1.Message = e
    ∧ (queryAllCars client world).1.Payload = [] := by
  have key : queryAllCars client world = (shim.Error e, world) := by
    rcases h with h | ⟨h, i, hi, hnone, herr⟩
    · simp only [queryAllCars, GetStateByRange, h]
    · simp only [queryAllCars, GetStateByRange, h]
      rw [queryAllCarsLoop_error client e _ 0 i false _ hi (by simpa using hnone)
        (by simpa using herr)]
  rw [key]
  exact ⟨rfl, rfl, rfl⟩

set_option maxRecDepth 100000 in
/-- C12 on the seeded ledger: with a failing `GetStateByRange`, and with the fourth
`Next` failing after three entries were returned. -/
theorem queryAllCars_scan_failure_witness :
    failingRange.rangeErr (str "CAR0") (str "CAR999") = some (str "scan unavailable")
    ∧ (queryAllCars failingRange (initLedger reliable []).2).1
        = shim.Error (str "scan unavailable")
    ∧ (3 < (Ledger.range (initLedger reliable []).2 (str "CAR0") (str "CAR999")).length
      ∧ (∀ m, m < 3 → (failingNext 3).nextErr m = none)
      ∧ (failingNext 3).nextErr 3 = some (str "iterator broken"))
    ∧ (queryAllCars (failingNext 3) (initLedger reliable []).2).1
        = shim.Error (str "iterator broken") :=
  have h3 : ∀ m, m < 3 → (failingNext 3).nextErr m = none := by
    intro m hm
    simp only [failingNext]
    rw [if_neg (by omega)]
  ⟨rfl,
    congrArg Prod.fst
      (queryAllCars_scan_failure failingRange (initLedger reliable []).2 (str "scan unavailable")
        (Or.inl rfl)).1,
    ⟨by decide, h3, rfl⟩,
    congrArg Prod.fst
      (queryAllCars_scan_failure (failingNext 3) (initLedger reliable []).2
        (str "iterator broken") (Or.inr ⟨rfl, 3, by decide, h3, rfl⟩)).1⟩

/-- C13: for every ledger, whether or not `k` is present, `createCar` with five
arguments succeeds; afterwards `k` holds the encoding of the new record and
every other key holds what it held before, or is absent as before. -/
theorem createCar_overwrites_only_its_key (world : Ledger)
    (k make model colour owner k1 : GoString) :
    (createCar reliable world [k, make, model, colour, owner]).1 = shim.Success []
    ∧ Ledger.get (createCar reliable world [k, make, model, colour, owner]).2 k1
        = if k = k1 then some (Marshal (Car.mk make model colour owner)) else world.get k1 := by
  rw [createCar_five, PutState_reliable]
  exact ⟨rfl, Ledger.get_put _ _ _ _⟩

/-- C14: for every sequence of rows the scan yields without failure, the loop leaves
the opening bracket followed by the elements in the order received, separated
by single commas, each element being the object text with the key between
double quotes as `Key` and the value bytes verbatim as `Record`; `queryAllCars`
returns that text for the rows of the window, closed by a bracket, and `[]` on
the empty ledger. -/
theorem queryAllCars_payload_shape (world : Ledger) (rows : Ledger) :
    queryAllCarsLoop reliable rows 0 false (str "[")
        = .ok (str "[" ++ List.intercalate (str ",")
            (rows.map (fun kv =>
              str "\x7b\"Key\":\"" ++ kv.1 ++ str "\", \"Record\":" ++ kv.2 ++ str "\x7d")))
    ∧ (queryAllCars reliable world).1
        = shim.Success (str "[" ++ List.intercalate (str ",")
            ((Ledger.range world (str "CAR0") (str "CAR999")).map (fun kv =>
              str "\x7b\"Key\":\"" ++ kv.1 ++ str "\", \"Record\":" ++ kv.2 ++ str "\x7d"))
            ++ str "]")
    ∧ (queryAllCars reliable []).1 = shim.Success (str "[]") := by
  have hf : (fun kv : GoString × GoString =>
      str "\x7b\"Key\":\"" ++ kv.1 ++ str "\", \"Record\":" ++ kv.2 ++ str "\x7d")
      = writeElement := by
    funext kv
    exact (writeElement_text kv).symm
  rw [hf, queryAllCars_reliable]
  exact ⟨queryAllCarsLoop_intercalate rows, rfl, rfl⟩

set_option maxRecDepth 1000000 in
/-- C15, the code at a key with a double quote: after `createCar` at the key `CAR1"x`,
which lies in the scan window, `queryAllCars` writes the key between quotes as it
is, not in its escaped form, and the payload is not valid JSON although the
stored value is; with the escaped key it would be. -/
theorem queryAllCars_key_not_escaped :
    (queryAllCars reliable
        (createCar reliable []
          [str "CAR1\"x", str "Honda", str "Civic", str "silver", str "Alex"]).2).1
      = shim.Success (str "[\x7b\"Key\":\"CAR1\"x\", \"Record\":\x7b\"make\":\"Honda\",\"model\":\"Civic\",\"colour\":\"silver\",\"owner\":\"Alex\"\x7d\x7d]")
    ∧ Valid (str "\x7b\"make\":\"Honda\",\"model\":\"Civic\",\"colour\":\"silver\",\"owner\":\"Alex\"\x7d") = true
    ∧ Valid (queryAllCars reliable
        (createCar reliable []
          [str "CAR1\"x", str "Honda", str "Civic", str "silver", str "Alex"]).2).1.Payload
      = false
    ∧ encodeString (str "CAR1\"x") = str "\"CAR1\\\"x\""
    ∧ Valid (str "[\x7b\"Key\":\"CAR1\\\"x\", \"Record\":\x7b\"make\":\"Honda\",\"model\":\"Civic\",\"colour\":\"silver\",\"owner\":\"Alex\"\x7d\x7d]") = true := by
  refine ⟨by rfl, by rfl, by rfl, by rfl, by rfl⟩

/-- C17: for every ledger in which key `k` is absent and every string `newOwner`,
`changeCarOwner` succeeds and the ledger then holds at `k` the encoding of the
record with empty make, model and colour and owner `newOwner`. -/
theorem changeCarOwner_absent_key (world : Ledger) (k newOwner : GoString)
    (hk : world.get k = none) :
    (changeCarOwner reliable world [k, newOwner]).1 = shim.Success []
    ∧ Ledger.get (changeCarOwner reliable world [k, newOwner]).2 k
        = some (Marshal (Car.mk [] [] [] newOwner)) := by
  have h : (Unmarshal ((world.get k).getD []) (Car.mk [] [] [] [])).1 = Car.mk [] [] [] [] := by
    rw [hk]
    rfl
  rw [changeCarOwner_of_empty_decode world k newOwner h]
  exact ⟨rfl, Ledger.get_put_same _ _ _⟩

set_option maxRecDepth 100000 in
/-- C17 on the empty ledger, at key `CAR7` and owner Dana. -/
theorem changeCarOwner_absent_key_witness :
    Ledger.get [] (str "CAR7") = none
    ∧ (changeCarOwner reliable [] [str "CAR7", str "Dana"]).1 = shim.Success []
    ∧ Ledger.get (changeCarOwner reliable [] [str "CAR7", str "Dana"]).2 (str "CAR7")
        = some (str "\x7b\"make\":\"\",\"model\":\"\",\"colour\":\"\",\"owner\":\"Dana\"\x7d") :=
  ⟨rfl, (changeCarOwner_absent_key [] (str "CAR7") (str "Dana") rfl).1,
    (changeCarOwner_absent_key [] (str "CAR7") (str "Dana") rfl).2.trans (by rfl)⟩

/-- C18: an invocation with an unknown function name, or of `queryCar`, `createCar` or
`changeCarOwner` with a wrong number of arguments, returns a failure and leaves
the ledger exactly as it was, for every ledger client. -/
theorem failed_invocation_writes_nothing (client : LedgerClient) (world : Ledger)
    (function : GoString) (args : List GoString)
    (h : (function ≠ str "queryCar" ∧ function ≠ str "initLedger" ∧ function ≠ str "createCar"
          ∧ function ≠ str "queryAllCars" ∧ function ≠ str "changeCarOwner")
      ∨ (function = str "queryCar" ∧ args.length ≠ 1)
      ∨ (function = str "createCar" ∧ args.length ≠ 5)
      ∨ (function = str "changeCarOwner" ∧ args.length ≠ 2)) :
    (Invoke client world function args).1.Status = 500
    ∧ (Invoke client world function args).2 = world := by
  have h1 : str "createCar" ≠ str "queryCar" := by decide
  have h2 : str "createCar" ≠ str "initLedger" := by decide
  have h3 : str "changeCarOwner" ≠ str "queryCar" := by decide
  have h4 : str "changeCarOwner" ≠ str "initLedger" := by decide
  have h5 : str "changeCarOwner" ≠ str "createCar" := by decide
  have h6 : str "changeCarOwner" ≠ str "queryAllCars" := by decide
  rcases h with ⟨a1, a2, a3, a4, a5⟩ | ⟨rfl, ha⟩ | ⟨rfl, ha⟩ | ⟨rfl, ha⟩
  · simp only [Invoke, if_neg a1, if_neg a2, if_neg a3, if_neg a4, if_neg a5]
    exact ⟨rfl, trivial⟩
  · simp only [Invoke, if_true, queryCar, if_pos ha]
    exact ⟨rfl, trivial⟩
  · simp only [Invoke, if_neg h1, if_neg h2, if_true, createCar, if_pos ha]
    exact ⟨rfl, trivial⟩
  · simp only [Invoke, if_neg h3, if_neg h4, if_neg h5, if_neg h6, if_true, changeCarOwner,
      if_pos ha]
    exact ⟨rfl, trivial⟩

set_option maxRecDepth 100000 in
/-- C18 at `createCar` with two arguments on the seeded ledger. -/
theorem failed_invocation_writes_nothing_witness :
    (str "createCar" = str "createCar" ∧ [str "CARX", str "Honda"].length ≠ 5)
    ∧ (Invoke reliable (initLedger reliable []).2 (str "createCar")
          [str "CARX", str "Honda"]).1.Status = 500
    ∧ (Invoke reliable (initLedger reliable []).2 (str "createCar")
          [str "CARX", str "Honda"]).2 = (initLedger reliable []).2 :=
  ⟨⟨rfl, by decide⟩,
    failed_invocation_writes_nothing reliable (initLedger reliable []).2 (str "createCar")
      [str "CARX", str "Honda"] (Or.inr (Or.inr (Or.inl ⟨rfl, by decide⟩)))⟩

/-- C19: for every ledger client, ledger and argument list, `queryCar` and
`queryAllCars` leave the ledger exactly as it was, whether they succeed or fail,
called directly or through `Invoke`. -/
theorem queries_are_read_only (client : LedgerClient) (world : Ledger) (args : List GoString) :
    (queryCar client world args).2 = world
    ∧ (queryAllCars client world).2 = world
    ∧ (Invoke client world (str "queryCar") args).2 = world
    ∧ (Invoke client world (str "queryAllCars") args).2 = world := by
  have h2 : str "queryAllCars" ≠ str "queryCar" := by decide
  have h3 : str "queryAllCars" ≠ str "initLedger" := by decide
  have h4 : str "queryAllCars" ≠ str "createCar" := by decide
  refine ⟨queryCar_world _ _ _, queryAllCars_world _ _, ?_, ?_⟩
  · simp only [Invoke, if_true]
    exact queryCar_world _ _ _
  · simp only [Invoke, if_neg h2, if_neg h3, if_neg h4, if_true]
    exact queryAllCars_world _ _

/-- C20: for every ledger, key and new owner, whatever is stored at the key,
`changeCarOwner` applied twice leaves exactly the ledger that one application
leaves, and one application changes the value of no other key. -/
theorem changeCarOwner_idempotent_and_local (world : Ledger) (k newOwner k1 : GoString) :
    (changeCarOwner reliable (changeCarOwner reliable world [k, newOwner]).2 [k, newOwner]).2
        = (changeCarOwner reliable world [k, newOwner]).2
    ∧ (changeCarOwner reliable (changeCarOwner reliable world [k, newOwner]).2
          [k, newOwner]).1 = shim.Success []
    ∧ Ledger.get (changeCarOwner reliable world [k, newOwner]).2 k1
        = if k = k1 then
            some (Marshal (Car.mk
              (Unmarshal ((world.get k).getD []) (Car.mk [] [] [] [])).1.Make
              (Unmarshal ((world.get k).getD []) (Car.mk [] [] [] [])).1.Model
              (Unmarshal ((world.get k).getD []) (Car.mk [] [] [] [])).1.Colour newOwner))
          else world.get k1 := by
  have hv := Unmarshal_valid ((world.get k).getD []) (Car.mk [] [] [] []) Car.Valid_empty
  obtain ⟨h1, h2, h3, _⟩ := hv
  refine ⟨?_, ?_, ?_⟩
  · simp only [changeCarOwner_two, GetState_reliable, PutState_reliable, Ledger.get_put_same,
      Option.getD_some]
    rw [Marshal_Unmarshal_Marshal (Unmarshal ((world.get k).getD []) (Car.mk [] [] [] [])).1
      newOwner h1 h2 h3, Ledger.put_put]
  · rw [changeCarOwner_two]
  · simp only [changeCarOwner_two, GetState_reliable, PutState_reliable]
    exact Ledger.get_put _ _ _ _

end Fabcar
